import Mathlib

/-!
Shallow embedding of the mission/progression core of the ThreeCraft repository
(src/core/HoneycombService.ts).  The wallet plumbing, DOM rendering and the
external Honeycomb persistence calls are outside the modelled core; the state
below captures exactly the fields that the progression logic reads and writes,
and each operation is a direct functional translation of the corresponding
method of HoneycombService.  JavaScript Map/Set fields are modelled as
insertion-ordered lists; the numeric fields only ever accumulate non-negative
integers, so they are modelled as Nat, and the float field progress is
modelled as a rational number.
-/

namespace Threecraft

/-- The four action kinds of MissionRequirement.type. -/
inductive ActionType where
  | block_break
  | block_place
  | distance_travel
  | item_collect
deriving DecidableEq

/-- MissionRequirement: kind, target ("any" or a specific block id),
threshold amount and running counter current. -/
structure MissionRequirement where
  type : ActionType
  target : String
  amount : Nat
  current : Nat
deriving DecidableEq

/-- The reward kinds of MissionReward.type. -/
inductive RewardType where
  | xp
  | trait
  | achievement
  | nectar
  | resource
deriving DecidableEq

/-- MissionReward.value is string | number in the source. -/
inductive RewardValue where
  | str (s : String)
  | num (n : Nat)
deriving DecidableEq

/-- MissionReward. -/
structure MissionReward where
  type : RewardType
  value : RewardValue
deriving DecidableEq

/-- The cast "reward.value as number" for well-typed payloads. -/
def RewardValue.asNum : RewardValue → Nat
  | .num n => n
  | .str _ => 0

/-- The cast "reward.value as string" for well-typed payloads. -/
def RewardValue.asStr : RewardValue → String
  | .str s => s
  | .num _ => ""

/-- Mission: identity and display data, requirement rows, reward list,
one-way completed flag and the progress fraction. -/
structure Mission where
  id : String
  title : String
  description : String
  requirements : List MissionRequirement
  rewards : List MissionReward
  completed : Bool
  progress : ℚ
deriving DecidableEq

/-- PlayerTrait. -/
structure PlayerTrait where
  id : String
  name : String
  value : Nat
  description : String
deriving DecidableEq

/-- Resource rarity. -/
inductive Rarity where
  | common
  | rare
  | epic
  | legendary
deriving DecidableEq

/-- Resource. -/
structure Resource where
  id : String
  name : String
  amount : Nat
  rarity : Rarity
deriving DecidableEq

/-- PlayerIdentity (the player record); the public key and the on-chain ids
are opaque to the progression logic and are omitted. -/
structure PlayerIdentity where
  experience : Nat
  level : Nat
  nectarBalance : Nat
  traits : List PlayerTrait
  resources : List Resource
deriving DecidableEq

/-- Payload of the allMissionsCompleted notification emitted by
showAllMissionsCompletedCelebration. -/
structure AllMissionsCompletedEvent where
  totalXP : Nat
  totalNectar : Nat
  level : Nat
  completedMissions : List String
deriving DecidableEq

/-- The mutable state of HoneycombService that the progression logic touches:
the wallet-connection flag, the player record, the mission map (as an
insertion-ordered list keyed by Mission.id), the completed-mission id set,
the action counters, and the log of emitted allMissionsCompleted events. -/
structure ServiceState where
  isConnected : Bool
  playerIdentity : Option PlayerIdentity
  activeMissions : List Mission
  completedMissions : List String
  actionCounts : List (String × Nat)
  events : List AllMissionsCompletedEvent
deriving DecidableEq

/-- this.activeMissions.get(missionId) on the list model. -/
def findMission (ms : List Mission) (mid : String) : Option Mission :=
  ms.find? (fun m => m.id == mid)

/-- In-place mutation of the mission stored under key mid: every entry whose
id is mid is replaced by the new value (the map keys are the ids, so in the
source there is exactly one such entry). -/
def setMission (ms : List Mission) (mid : String) (m' : Mission) : List Mission :=
  match ms with
  | [] => []
  | a :: l => (if a.id == mid then m' else a) :: setMission l mid m'

/-- this.actionCounts.get(k) || 0. -/
def getCount (cs : List (String × Nat)) (k : String) : Nat :=
  match cs.find? (fun c => c.1 == k) with
  | some c => c.2
  | none => 0

/-- this.actionCounts.set(k, v). -/
def setCount (cs : List (String × Nat)) (k : String) (v : Nat) : List (String × Nat) :=
  if cs.any (fun c => c.1 == k) then cs.map (fun c => if c.1 == k then (k, v) else c)
  else cs ++ [(k, v)]

/-- this.completedMissions.add(missionId) (Set semantics, insertion order). -/
def addCompletedId (ids : List String) (mid : String) : List String :=
  if ids.contains mid then ids else ids ++ [mid]

/-- addExperience on the player record: accumulate experience, recompute the
level as floor(experience / 100) + 1 and store it only when it went up. -/
def addExperienceP (p : PlayerIdentity) (amount : Nat) : PlayerIdentity :=
  let exp := p.experience + amount
  let newLevel := exp / 100 + 1
  if newLevel > p.level then { p with experience := exp, level := newLevel }
  else { p with experience := exp }

/-- HoneycombService.addExperience (no-op when no player record). -/
def addExperience (s : ServiceState) (amount : Nat) : ServiceState :=
  { s with playerIdentity := s.playerIdentity.map (fun p => addExperienceP p amount) }

/-- traits.find(t => t.id === traitId) followed by the in-place increment:
only the first trait with the given id grows; an unknown id changes nothing. -/
def growTraitList (ts : List PlayerTrait) (traitId : String) (amount : Nat) :
    List PlayerTrait :=
  match ts with
  | [] => []
  | t :: rest =>
    if t.id == traitId then { t with value := t.value + amount } :: rest
    else t :: growTraitList rest traitId amount

/-- HoneycombService.addTraitExperience. -/
def addTraitExperience (s : ServiceState) (traitId : String) (amount : Nat) :
    ServiceState :=
  { s with playerIdentity :=
      s.playerIdentity.map (fun p => { p with traits := growTraitList p.traits traitId amount }) }

/-- HoneycombService.addNectar. -/
def addNectar (s : ServiceState) (amount : Nat) : ServiceState :=
  { s with playerIdentity :=
      s.playerIdentity.map (fun p => { p with nectarBalance := p.nectarBalance + amount }) }

/-- resources.find(r => r.id === resourceId) followed by the in-place
increment; an unknown id changes nothing. -/
def growResourceList (rs : List Resource) (resourceId : String) (amount : Nat) :
    List Resource :=
  match rs with
  | [] => []
  | r :: rest =>
    if r.id == resourceId then { r with amount := r.amount + amount } :: rest
    else r :: growResourceList rest resourceId amount

/-- HoneycombService.addResource. -/
def addResource (s : ServiceState) (resourceId : String) (amount : Nat) :
    ServiceState :=
  { s with playerIdentity :=
      s.playerIdentity.map (fun p => { p with resources := growResourceList p.resources resourceId amount }) }

/-- One arm of the reward dispatch in completeMission: xp adds experience,
trait grows the named trait by 1, nectar adds currency, resource grows the
named resource by 1, and achievement has no arm (no effect). -/
def applyReward (s : ServiceState) (r : MissionReward) : ServiceState :=
  match r.type with
  | .xp => addExperience s r.value.asNum
  | .trait => addTraitExperience s r.value.asStr 1
  | .nectar => addNectar s r.value.asNum
  | .resource => addResource s r.value.asStr 1
  | .achievement => s

/-- Sum of req.amount over the requirement rows. -/
def totalRequired (rs : List MissionRequirement) : Nat :=
  (rs.map (fun r => r.amount)).sum

/-- Sum of req.current over the requirement rows. -/
def totalCurrent (rs : List MissionRequirement) : Nat :=
  (rs.map (fun r => r.current)).sum

/-- Math.min on rationals, kept executable. -/
def ratMin (a b : ℚ) : ℚ :=
  if a ≤ b then a else b

/-- mission.progress = Math.min(totalCurrent / totalRequired, 1). -/
def missionProgressOf (rs : List MissionRequirement) : ℚ :=
  ratMin ((totalCurrent rs : ℚ) / (totalRequired rs : ℚ)) 1

/-- HoneycombService.areAllMissionsCompleted:
allMissions.length > 0 && allMissions.every(m => m.completed). -/
def areAllMissionsCompleted (s : ServiceState) : Bool :=
  decide (0 < s.activeMissions.length) && s.activeMissions.all (fun m => m.completed)

/-- The payload assembled by showAllMissionsCompletedCelebration:
playerIdentity?.experience || 0, playerIdentity?.nectarBalance || 0,
playerIdentity?.level || 1, Array.from(this.completedMissions). -/
def mkAllCompletedEvent (s : ServiceState) : AllMissionsCompletedEvent :=
  { totalXP := match s.playerIdentity with | some p => p.experience | none => 0
    totalNectar := match s.playerIdentity with | some p => p.nectarBalance | none => 0
    level := match s.playerIdentity with | some p => (if p.level = 0 then 1 else p.level) | none => 1
    completedMissions := s.completedMissions }

/-- HoneycombService.checkAllMissionsCompleted: when every mission in the
catalog is completed and the catalog is non-empty, the celebration popup
emits one allMissionsCompleted event. -/
def checkAllMissionsCompleted (s : ServiceState) : ServiceState :=
  let completedCount := (s.activeMissions.filter (fun m => m.completed)).length
  let totalMissions := s.activeMissions.length
  if completedCount = totalMissions ∧ 0 < totalMissions then
    { s with events := s.events ++ [mkAllCompletedEvent s] }
  else s

/-- HoneycombService.completeMission: no-op on an unknown or already
completed mission; otherwise mark it completed, record its id, apply the
rewards in list order, then check for the all-missions milestone (the DOM
notification and the fire-and-forget save have no effect on this state). -/
def completeMission (s : ServiceState) (missionId : String) : ServiceState :=
  match findMission s.activeMissions missionId with
  | none => s
  | some m =>
    if m.completed then s
    else
      let s1 : ServiceState :=
        { s with
          activeMissions := setMission s.activeMissions missionId { m with completed := true }
          completedMissions := addCompletedId s.completedMissions missionId }
      let s2 := m.rewards.foldl applyReward s1
      checkAllMissionsCompleted s2

/-- requirement.type === actionType &&
(requirement.target === target || requirement.target === 'any'). -/
def reqMatches (r : MissionRequirement) (actionType : ActionType) (target : String) :
    Bool :=
  decide (r.type = actionType ∧ (r.target = target ∨ r.target = "any"))

/-- Replace the i-th entry of a list by f applied to it. -/
def modifyIdx (f : MissionRequirement → MissionRequirement) :
    List MissionRequirement → Nat → List MissionRequirement
  | [], _ => []
  | r :: rest, 0 => f r :: rest
  | r :: rest, i + 1 => r :: modifyIdx f rest i

/-- requirement.current++ on the i-th requirement row. -/
def bumpAt (rs : List MissionRequirement) (i : Nat) : List MissionRequirement :=
  modifyIdx (fun q => { q with current := q.current + 1 }) rs i

/-- The mission after the i-th row's counter bump and the progress
recomputation that immediately follows it. -/
def bumpedMission (m : Mission) (i : Nat) : Mission :=
  { m with requirements := bumpAt m.requirements i,
           progress := missionProgressOf (bumpAt m.requirements i) }

/-- The body of the inner requirements loop of updateMissionProgress at
requirement index i: when the row matches, bump its counter, recompute the
mission's progress from the updated rows, and on crossing the threshold of a
not yet completed mission invoke completeMission at once.  The mission is
re-read from the state because the loop works on the live mission object. -/
def processReqStep (s : ServiceState) (missionId : String) (actionType : ActionType)
    (target : String) (i : Nat) : ServiceState :=
  match findMission s.activeMissions missionId with
  | none => s
  | some m =>
    match m.requirements[i]? with
    | none => s
    | some r =>
      if reqMatches r actionType target then
        let m2 : Mission := bumpedMission m i
        let s1 : ServiceState := { s with activeMissions := setMission s.activeMissions missionId m2 }
        if 1 ≤ m2.progress ∧ m2.completed = false then completeMission s1 missionId else s1
      else s

/-- One iteration of the outer mission loop of updateMissionProgress:
skip a completed mission, otherwise run the requirements loop. -/
def updateMissionOne (s : ServiceState) (missionId : String) (actionType : ActionType)
    (target : String) : ServiceState :=
  match findMission s.activeMissions missionId with
  | none => s
  | some m =>
    if m.completed then s
    else
      (List.range m.requirements.length).foldl
        (fun st i => processReqStep st missionId actionType target i) s

/-- HoneycombService.updateMissionProgress: visit every mission of the map
(completion never adds or removes entries, so the key list is fixed up
front, as with Map.forEach). -/
def updateMissionProgress (s : ServiceState) (actionType : ActionType)
    (target : String) : ServiceState :=
  (s.activeMissions.map (fun m => m.id)).foldl
    (fun st mid => updateMissionOne st mid actionType target) s

/-- HoneycombService.trackBlockBreak. -/
def trackBlockBreak (s : ServiceState) (blockType : String) : ServiceState :=
  if s.isConnected then
    let k := "break_" ++ blockType
    let s1 : ServiceState := { s with actionCounts := setCount s.actionCounts k (getCount s.actionCounts k + 1) }
    updateMissionProgress s1 .block_break blockType
  else s

/-- HoneycombService.trackBlockPlace. -/
def trackBlockPlace (s : ServiceState) (blockType : String) : ServiceState :=
  if s.isConnected then
    let k := "place_" ++ blockType
    let s1 : ServiceState := { s with actionCounts := setCount s.actionCounts k (getCount s.actionCounts k + 1) }
    updateMissionProgress s1 .block_place blockType
  else s

/-- The action events the world simulation feeds into the service. -/
inductive GameOp where
  | placeBlock (blockType : String)
  | breakBlock (blockType : String)
deriving DecidableEq

/-- Dispatch of one action event. -/
def applyOp (s : ServiceState) (op : GameOp) : ServiceState :=
  match op with
  | .placeBlock b => trackBlockPlace s b
  | .breakBlock b => trackBlockBreak s b

/-- A session's worth of action events, oldest first. -/
def applyTrace (s : ServiceState) (ops : List GameOp) : ServiceState :=
  ops.foldl applyOp s

/-- The action kind an event feeds into updateMissionProgress. -/
def GameOp.actionType : GameOp → ActionType
  | .placeBlock _ => .block_place
  | .breakBlock _ => .block_break

/-- The target an event feeds into updateMissionProgress. -/
def GameOp.target : GameOp → String
  | .placeBlock b => b
  | .breakBlock b => b

/-- HoneycombService.getDefaultTraits. -/
def getDefaultTraits : List PlayerTrait :=
  [ { id := "builder", name := "Builder", value := 0,
      description := "Experience in building structures" },
    { id := "architect", name := "Architect", value := 0,
      description := "Experience in designing complex buildings" },
    { id := "artist", name := "Artist", value := 0,
      description := "Experience in creating beautiful structures" },
    { id := "craftsman", name := "Craftsman", value := 0,
      description := "Experience in detailed construction work" } ]

/-- HoneycombService.getDefaultResources. -/
def getDefaultResources : List Resource :=
  [ { id := "stone", name := "Stone", amount := 0, rarity := .common },
    { id := "wood", name := "Wood", amount := 0, rarity := .common },
    { id := "glass", name := "Glass", amount := 0, rarity := .rare },
    { id := "diamond", name := "Diamond", amount := 0, rarity := .legendary } ]

/-- The first catalog entry, named so that concrete theorems can refer to it. -/
def firstBuilderMission : Mission :=
  { id := "first_builder", title := "First Builder",
    description := "Place your first block to start building",
    requirements := [ { type := .block_place, target := "any", amount := 1, current := 0 } ],
    rewards := [ { type := .xp, value := .num 10 },
                 { type := .nectar, value := .num 5 },
                 { type := .trait, value := .str "builder" } ],
    completed := false, progress := 0 }

/-- The fixed catalog installed by HoneycombService when the wallet connects. -/
def defaultMissions : List Mission :=
  [ firstBuilderMission,
    { id := "stone_house", title := "Stone House",
      description := "Build a house using 20 stone blocks",
      requirements := [ { type := .block_place, target := "STONE", amount := 20, current := 0 } ],
      rewards := [ { type := .xp, value := .num 50 },
                   { type := .nectar, value := .num 25 },
                   { type := .resource, value := .str "stone" },
                   { type := .trait, value := .str "builder" } ],
      completed := false, progress := 0 },
    { id := "wooden_structures", title := "Wooden Structures",
      description := "Place 15 wooden blocks (planks or logs)",
      requirements := [ { type := .block_place, target := "PLANKS", amount := 15, current := 0 } ],
      rewards := [ { type := .xp, value := .num 30 },
                   { type := .nectar, value := .num 15 },
                   { type := .resource, value := .str "wood" },
                   { type := .trait, value := .str "builder" } ],
      completed := false, progress := 0 },
    { id := "glass_artist", title := "Glass Artist",
      description := "Create beautiful structures with 10 glass blocks",
      requirements := [ { type := .block_place, target := "GLASS", amount := 10, current := 0 } ],
      rewards := [ { type := .xp, value := .num 40 },
                   { type := .nectar, value := .num 20 },
                   { type := .resource, value := .str "glass" },
                   { type := .trait, value := .str "artist" } ],
      completed := false, progress := 0 },
    { id := "master_builder", title := "Master Builder",
      description := "Place 50 blocks of any type to become a master",
      requirements := [ { type := .block_place, target := "any", amount := 50, current := 0 } ],
      rewards := [ { type := .xp, value := .num 100 },
                   { type := .nectar, value := .num 50 },
                   { type := .resource, value := .str "diamond" },
                   { type := .trait, value := .str "architect" } ],
      completed := false, progress := 0 } ]

/-- The service state right after connectWallet on a fresh session: flag set,
fresh player record with the default trait/resource catalogs (the development
backend loads all-zero character data, leaving the record unchanged), and the
default mission catalog installed. -/
def connectedState : ServiceState :=
  { isConnected := true
    playerIdentity := some
      { experience := 0, level := 1, nectarBalance := 0,
        traits := getDefaultTraits, resources := getDefaultResources }
    activeMissions := defaultMissions
    completedMissions := []
    actionCounts := []
    events := [] }

/-- The state before any wallet is connected. -/
def disconnectedState : ServiceState :=
  { isConnected := false, playerIdentity := none, activeMissions := [],
    completedMissions := [], actionCounts := [], events := [] }

/-- The player's level as observable through getPlayerIdentity (0 when no
record exists; every operation keeps a missing record missing). -/
def levelOf (s : ServiceState) : Nat :=
  match s.playerIdentity with
  | some p => p.level
  | none => 0

/-- The player's experience as observable through getPlayerIdentity. -/
def expOf (s : ServiceState) : Nat :=
  match s.playerIdentity with
  | some p => p.experience
  | none => 0

/-- The player's nectar balance as observable through getPlayerIdentity. -/
def nectarOf (s : ServiceState) : Nat :=
  match s.playerIdentity with
  | some p => p.nectarBalance
  | none => 0

/-- The value of the first trait with the given id, when present. -/
def traitValOf (s : ServiceState) (traitId : String) : Option Nat :=
  s.playerIdentity.bind fun p =>
    (p.traits.find? (fun t => t.id == traitId)).map (fun t => t.value)

/-- The amount of the first resource with the given id, when present. -/
def resourceAmtOf (s : ServiceState) (resourceId : String) : Option Nat :=
  s.playerIdentity.bind fun p =>
    (p.resources.find? (fun r => r.id == resourceId)).map (fun r => r.amount)

/-- The level-derivation invariant: whenever a player record exists, its
stored level is floor(experience / 100) + 1. -/
def levelInv (s : ServiceState) : Prop :=
  ∀ p, s.playerIdentity = some p → p.level = p.experience / 100 + 1

/-- The effect of one requirements-loop iteration on the mission itself
(processReqStep touches the mission under the given id exactly this way;
completion additionally applies rewards and events to the rest of the
state). -/
def pureReqStep (actionType : ActionType) (target : String) (m : Mission) (i : Nat) :
    Mission :=
  match m.requirements[i]? with
  | none => m
  | some r =>
    if reqMatches r actionType target then
      let m2 : Mission := bumpedMission m i
      if 1 ≤ m2.progress ∧ m2.completed = false then { m2 with completed := true } else m2
    else m

/-- The effect of one whole updateMissionProgress pass on a single mission. -/
def pureMissionUpdate (actionType : ActionType) (target : String) (m : Mission) :
    Mission :=
  if m.completed then m
  else (List.range m.requirements.length).foldl
    (fun mm i => pureReqStep actionType target mm i) m

/-- The static part of a requirement row (everything except the counter). -/
def reqShape (r : MissionRequirement) : ActionType × String × Nat :=
  (r.type, r.target, r.amount)

/-- The static parts of a requirement list. -/
def reqShapes (rs : List MissionRequirement) : List (ActionType × String × Nat) :=
  rs.map reqShape

/-- The indices of the requirement rows of m that an action event matches. -/
def matchIdxs (m : Mission) (op : GameOp) : List Nat :=
  (List.range m.requirements.length).filter fun i =>
    match m.requirements[i]? with
    | some r => reqMatches r op.actionType op.target
    | none => false

/-- How many requirement rows of m an action event matches. -/
def opMatchCount (m : Mission) (op : GameOp) : Nat :=
  (matchIdxs m op).length

/-- Mission well-formedness, preserved by every action event: positive
thresholds (as the data model requires), progress within [0, 1], and
progress not above the fraction recomputed from the counters (so the next
recomputation can only move it up). -/
def MInv (m : Mission) : Prop :=
  (∀ r ∈ m.requirements, 1 ≤ r.amount) ∧ 0 ≤ m.progress ∧ m.progress ≤ 1 ∧
  (m.requirements ≠ [] → m.progress ≤ missionProgressOf m.requirements)

/-- The mission map's keys are the ids, so the id list has no duplicates. -/
def NodupIds (s : ServiceState) : Prop :=
  (s.activeMissions.map (fun m => m.id)).Nodup

/-- Service well-formedness: key uniqueness plus per-mission MInv. -/
def SWF (s : ServiceState) : Prop :=
  NodupIds s ∧ ∀ m ∈ s.activeMissions, MInv m

/-- Session invariant for the all-missions milestone: either nothing was
emitted and not all missions are completed, or exactly one event was
emitted, it carries the current aggregate stats, and all missions are
completed. -/
def SInv (s : ServiceState) : Prop :=
  NodupIds s ∧
  ((s.events = [] ∧ areAllMissionsCompleted s = false) ∨
   (s.events = [mkAllCompletedEvent s] ∧ areAllMissionsCompleted s = true))

/-- One service state evolves from another, player-wise: the level-derivation
invariant is carried along and the observable level never drops. -/
def PlayerEvolves (s s' : ServiceState) : Prop :=
  (levelInv s → levelInv s') ∧ levelOf s ≤ levelOf s'

/-- A two-row mission on which the counter of the second row can overrun its
threshold: the first row needs 2, the second needs 1, both match any placed
block. -/
def overflowMission : Mission :=
  { id := "over", title := "Over", description := "two any-place rows",
    requirements := [ { type := .block_place, target := "any", amount := 2, current := 0 },
                      { type := .block_place, target := "any", amount := 1, current := 0 } ],
    rewards := [], completed := false, progress := 0 }

/-- A connected session whose catalog holds only overflowMission. -/
def overflowState : ServiceState :=
  { isConnected := true, playerIdentity := none, activeMissions := [overflowMission],
    completedMissions := [], actionCounts := [], events := [] }

/-- A catalog entry that is already completed, for exercising the
completed-missions-are-frozen property. -/
def completedFixtureMission : Mission :=
  { id := "done_mission", title := "Done", description := "already finished",
    requirements := [ { type := .block_place, target := "any", amount := 1, current := 1 } ],
    rewards := [], completed := true, progress := 1 }

/-- A connected session whose catalog holds only completedFixtureMission. -/
def completedFixtureState : ServiceState :=
  { isConnected := true, playerIdentity := none,
    activeMissions := [completedFixtureMission],
    completedMissions := ["done_mission"], actionCounts := [], events := [] }

/-! ### Theorems -/

/-! #### Plumbing: which fields each operation can touch -/

theorem applyReward_activeMissions (s : ServiceState) (r : MissionReward) :
    (applyReward s r).activeMissions = s.activeMissions := by
  rcases r with ⟨t, v⟩; cases t <;> rfl

theorem applyReward_isConnected (s : ServiceState) (r : MissionReward) :
    (applyReward s r).isConnected = s.isConnected := by
  rcases r with ⟨t, v⟩; cases t <;> rfl

theorem applyReward_completedMissions (s : ServiceState) (r : MissionReward) :
    (applyReward s r).completedMissions = s.completedMissions := by
  rcases r with ⟨t, v⟩; cases t <;> rfl

theorem applyReward_events (s : ServiceState) (r : MissionReward) :
    (applyReward s r).events = s.events := by
  rcases r with ⟨t, v⟩; cases t <;> rfl

theorem applyReward_playerIdentity_congr (s s' : ServiceState) (r : MissionReward)
    (h : s.playerIdentity = s'.playerIdentity) :
    (applyReward s r).playerIdentity = (applyReward s' r).playerIdentity := by
  rcases r with ⟨t, v⟩
  cases t <;>
    simp [applyReward, addExperience, addTraitExperience, addNectar, addResource, h]

theorem foldl_applyReward_activeMissions (rs : List MissionReward) (s : ServiceState) :
    (rs.foldl applyReward s).activeMissions = s.activeMissions := by
  induction rs generalizing s with
  | nil => rfl
  | cons r rest ih => rw [List.foldl_cons, ih, applyReward_activeMissions]

theorem foldl_applyReward_isConnected (rs : List MissionReward) (s : ServiceState) :
    (rs.foldl applyReward s).isConnected = s.isConnected := by
  induction rs generalizing s with
  | nil => rfl
  | cons r rest ih => rw [List.foldl_cons, ih, applyReward_isConnected]

theorem foldl_applyReward_completedMissions (rs : List MissionReward) (s : ServiceState) :
    (rs.foldl applyReward s).completedMissions = s.completedMissions := by
  induction rs generalizing s with
  | nil => rfl
  | cons r rest ih => rw [List.foldl_cons, ih, applyReward_completedMissions]

theorem foldl_applyReward_events (rs : List MissionReward) (s : ServiceState) :
    (rs.foldl applyReward s).events = s.events := by
  induction rs generalizing s with
  | nil => rfl
  | cons r rest ih => rw [List.foldl_cons, ih, applyReward_events]

theorem foldl_applyReward_playerIdentity_congr (rs : List MissionReward)
    (s s' : ServiceState) (h : s.playerIdentity = s'.playerIdentity) :
    (rs.foldl applyReward s).playerIdentity = (rs.foldl applyReward s').playerIdentity := by
  induction rs generalizing s s' with
  | nil => exact h
  | cons r rest ih =>
    rw [List.foldl_cons, List.foldl_cons]
    exact ih _ _ (applyReward_playerIdentity_congr _ _ _ h)

theorem checkAll_activeMissions (s : ServiceState) :
    (checkAllMissionsCompleted s).activeMissions = s.activeMissions := by
  simp only [checkAllMissionsCompleted]; split <;> rfl

theorem checkAll_playerIdentity (s : ServiceState) :
    (checkAllMissionsCompleted s).playerIdentity = s.playerIdentity := by
  simp only [checkAllMissionsCompleted]; split <;> rfl

theorem checkAll_completedMissions (s : ServiceState) :
    (checkAllMissionsCompleted s).completedMissions = s.completedMissions := by
  simp only [checkAllMissionsCompleted]; split <;> rfl

theorem checkAll_isConnected (s : ServiceState) :
    (checkAllMissionsCompleted s).isConnected = s.isConnected := by
  simp only [checkAllMissionsCompleted]; split <;> rfl

/-! #### The mission map as an association list -/

theorem findMission_id {ms : List Mission} {mid : String} {m : Mission}
    (h : findMission ms mid = some m) : m.id = mid := by
  have := List.find?_some h
  simpa using this

theorem findMission_mem {ms : List Mission} {mid : String} {m : Mission}
    (h : findMission ms mid = some m) : m ∈ ms :=
  List.mem_of_find?_eq_some h

theorem findMission_cons (a : Mission) (l : List Mission) (mid : String) :
    findMission (a :: l) mid = if a.id = mid then some a else findMission l mid := by
  by_cases h : a.id = mid
  · rw [if_pos h]; unfold findMission; rw [List.find?_cons_of_pos _ (by simp [h])]
  · rw [if_neg h]; unfold findMission; rw [List.find?_cons_of_neg _ (by simp [h])]

theorem setMission_cons (a : Mission) (l : List Mission) (mid : String) (m' : Mission) :
    setMission (a :: l) mid m' = (if a.id = mid then m' else a) :: setMission l mid m' := by
  by_cases h : a.id = mid <;> simp [setMission, h]

theorem findMission_setMission_self {ms : List Mission} {mid : String} {m m' : Mission}
    (h : findMission ms mid = some m) (h' : m'.id = mid) :
    findMission (setMission ms mid m') mid = some m' := by
  induction ms with
  | nil => simp [findMission] at h
  | cons a l ih =>
    rw [setMission_cons]
    by_cases ha : a.id = mid
    · rw [if_pos ha, findMission_cons, if_pos h']
    · rw [findMission_cons, if_neg ha] at h
      rw [if_neg ha, findMission_cons, if_neg ha]
      exact ih h

theorem findMission_setMission_ne {mid : String} (ms : List Mission) (m' : Mission)
    (h' : m'.id = mid) (mid' : String) (hne : mid' ≠ mid) :
    findMission (setMission ms mid m') mid' = findMission ms mid' := by
  induction ms with
  | nil => rfl
  | cons a l ih =>
    rw [setMission_cons, findMission_cons, findMission_cons]
    by_cases ha : a.id = mid
    · have h1 : ¬ m'.id = mid' := by rw [h']; exact fun hc => hne hc.symm
      have h2 : ¬ a.id = mid' := by rw [ha]; exact fun hc => hne hc.symm
      rw [if_pos ha, if_neg h1, if_neg h2, ih]
    · rw [if_neg ha]
      by_cases hb : a.id = mid'
      · rw [if_pos hb, if_pos hb]
      · rw [if_neg hb, if_neg hb, ih]

theorem setMission_map_id {mid : String} (ms : List Mission) (m' : Mission)
    (h' : m'.id = mid) :
    (setMission ms mid m').map (fun m => m.id) = ms.map (fun m => m.id) := by
  induction ms with
  | nil => rfl
  | cons a l ih =>
    rw [setMission_cons]
    by_cases ha : a.id = mid
    · rw [if_pos ha]
      simp [List.map_cons, h', ha, ih]
    · rw [if_neg ha]
      simp [List.map_cons, ih]

/-- C10 lemma body: a disconnected service ignores action events. -/
theorem trackers_noop_of_disconnected (s : ServiceState) (b : String)
    (h : s.isConnected = false) :
    trackBlockPlace s b = s ∧ trackBlockBreak s b = s := by
  constructor <;> simp [trackBlockPlace, trackBlockBreak, h]

/-- Claim C10: when no wallet session is connected (isConnected is false),
trackBlockPlace and trackBlockBreak return immediately and change nothing:
the action counts, every mission's requirements and progress, and the player
record are all left unchanged (the whole state is untouched). -/
theorem claim_C10 (s : ServiceState) (b : String) (h : s.isConnected = false) :
    trackBlockPlace s b = s ∧ trackBlockBreak s b = s :=
  trackers_noop_of_disconnected s b h

/-- Witness for C10 at a concrete disconnected state. -/
theorem claim_C10_witness :
    disconnectedState.isConnected = false ∧
    (trackBlockPlace disconnectedState "STONE" = disconnectedState ∧
     trackBlockBreak disconnectedState "STONE" = disconnectedState) :=
  ⟨rfl, claim_C10 disconnectedState "STONE" rfl⟩

/-! #### Branch equations for the mission-update operations -/

@[simp] theorem bumpedMission_id (m : Mission) (i : Nat) :
    (bumpedMission m i).id = m.id := rfl

@[simp] theorem bumpedMission_completed (m : Mission) (i : Nat) :
    (bumpedMission m i).completed = m.completed := rfl

@[simp] theorem bumpedMission_requirements (m : Mission) (i : Nat) :
    (bumpedMission m i).requirements = bumpAt m.requirements i := rfl

@[simp] theorem bumpedMission_progress (m : Mission) (i : Nat) :
    (bumpedMission m i).progress = missionProgressOf (bumpAt m.requirements i) := rfl

@[simp] theorem bumpedMission_rewards (m : Mission) (i : Nat) :
    (bumpedMission m i).rewards = m.rewards := rfl

theorem completeMission_eq_none {s : ServiceState} {mid : String}
    (hf : findMission s.activeMissions mid = none) : completeMission s mid = s := by
  simp [completeMission, hf]

theorem completeMission_eq_completed {s : ServiceState} {mid : String} {m : Mission}
    (hf : findMission s.activeMissions mid = some m) (hc : m.completed = true) :
    completeMission s mid = s := by
  simp [completeMission, hf, hc]

theorem completeMission_eq_run {s : ServiceState} {mid : String} {m : Mission}
    (hf : findMission s.activeMissions mid = some m) (hc : m.completed = false) :
    completeMission s mid =
      checkAllMissionsCompleted (m.rewards.foldl applyReward
        { s with
          activeMissions := setMission s.activeMissions mid { m with completed := true }
          completedMissions := addCompletedId s.completedMissions mid }) := by
  simp [completeMission, hf, hc]

theorem processReqStep_eq_noMission {s : ServiceState} {mid : String}
    {a : ActionType} {t : String} {i : Nat}
    (hf : findMission s.activeMissions mid = none) : processReqStep s mid a t i = s := by
  simp [processReqStep, hf]

theorem processReqStep_eq_noReq {s : ServiceState} {mid : String}
    {a : ActionType} {t : String} {i : Nat} {m : Mission}
    (hf : findMission s.activeMissions mid = some m)
    (hr : m.requirements[i]? = none) : processReqStep s mid a t i = s := by
  simp [processReqStep, hf, hr]

theorem processReqStep_eq_noMatch {s : ServiceState} {mid : String}
    {a : ActionType} {t : String} {i : Nat} {m : Mission} {r : MissionRequirement}
    (hf : findMission s.activeMissions mid = some m)
    (hr : m.requirements[i]? = some r) (hm : reqMatches r a t = false) :
    processReqStep s mid a t i = s := by
  simp [processReqStep, hf, hr, hm]

theorem processReqStep_eq_match {s : ServiceState} {mid : String}
    {a : ActionType} {t : String} {i : Nat} {m : Mission} {r : MissionRequirement}
    (hf : findMission s.activeMissions mid = some m)
    (hr : m.requirements[i]? = some r) (hm : reqMatches r a t = true) :
    processReqStep s mid a t i =
      if 1 ≤ (bumpedMission m i).progress ∧ m.completed = false
      then completeMission
        { s with activeMissions := setMission s.activeMissions mid (bumpedMission m i) } mid
      else { s with activeMissions := setMission s.activeMissions mid (bumpedMission m i) } := by
  simp only [processReqStep, hf, hr, hm, if_true, bumpedMission_completed]

theorem updateMissionOne_eq_none {s : ServiceState} {mid : String}
    {a : ActionType} {t : String}
    (hf : findMission s.activeMissions mid = none) : updateMissionOne s mid a t = s := by
  simp [updateMissionOne, hf]

theorem updateMissionOne_eq_completed {s : ServiceState} {mid : String}
    {a : ActionType} {t : String} {m : Mission}
    (hf : findMission s.activeMissions mid = some m) (hc : m.completed = true) :
    updateMissionOne s mid a t = s := by
  simp [updateMissionOne, hf, hc]

theorem updateMissionOne_eq_run {s : ServiceState} {mid : String}
    {a : ActionType} {t : String} {m : Mission}
    (hf : findMission s.activeMissions mid = some m) (hc : m.completed = false) :
    updateMissionOne s mid a t =
      (List.range m.requirements.length).foldl
        (fun st i => processReqStep st mid a t i) s := by
  simp [updateMissionOne, hf, hc]

theorem trackBlockPlace_eq_connected {s : ServiceState} {b : String}
    (h : s.isConnected = true) :
    trackBlockPlace s b =
      updateMissionProgress
        { s with actionCounts :=
            setCount s.actionCounts ("place_" ++ b) (getCount s.actionCounts ("place_" ++ b) + 1) }
        ActionType.block_place b := by
  simp [trackBlockPlace, h]

theorem trackBlockBreak_eq_connected {s : ServiceState} {b : String}
    (h : s.isConnected = true) :
    trackBlockBreak s b =
      updateMissionProgress
        { s with actionCounts :=
            setCount s.actionCounts ("break_" ++ b) (getCount s.actionCounts ("break_" ++ b) + 1) }
        ActionType.block_break b := by
  simp [trackBlockBreak, h]

/-! #### Completion is a one-way transition -/

theorem completeMission_findMission_self (s : ServiceState) (mid : String) (m : Mission)
    (h : findMission s.activeMissions mid = some m) (hc : m.completed = false) :
    findMission (completeMission s mid).activeMissions mid =
      some { m with completed := true } := by
  simp only [completeMission, h, hc, Bool.false_eq_true, if_false]
  rw [checkAll_activeMissions, foldl_applyReward_activeMissions]
  have hid : ({ m with completed := true } : Mission).id = mid := by
    show m.id = mid
    exact findMission_id h
  exact findMission_setMission_self h hid

/-- Claim C3: completeMission is idempotent: invoking it on an unknown
mission id or an already-completed mission is a no-op, and invoking it twice
leaves exactly the state of the first invocation, so rewards apply once and
the player record changes only on the first false-to-true transition. -/
theorem claim_C3 (s : ServiceState) (mid : String) :
    (findMission s.activeMissions mid = none → completeMission s mid = s) ∧
    (∀ m, findMission s.activeMissions mid = some m → m.completed = true →
      completeMission s mid = s) ∧
    completeMission (completeMission s mid) mid = completeMission s mid := by
  refine ⟨?_, ?_, ?_⟩
  · intro h; simp [completeMission, h]
  · intro m h hc; simp [completeMission, h, hc]
  · cases hf : findMission s.activeMissions mid with
    | none =>
      have h1 : completeMission s mid = s := by simp [completeMission, hf]
      rw [h1]; exact h1
    | some m =>
      cases hcm : m.completed with
      | true =>
        have h1 : completeMission s mid = s := by simp [completeMission, hf, hcm]
        rw [h1]; exact h1
      | false =>
        have h2 := completeMission_findMission_self s mid m hf hcm
        conv_lhs => rw [completeMission.eq_def]
        rw [h2]
        simp

/-- Witness for C3: double completion on the fresh catalog, and completion of
an unknown id on the disconnected state. -/
theorem claim_C3_witness :
    completeMission (completeMission connectedState "first_builder") "first_builder" =
      completeMission connectedState "first_builder" ∧
    completeMission disconnectedState "no_such_mission" = disconnectedState :=
  ⟨(claim_C3 connectedState "first_builder").2.2,
   (claim_C3 disconnectedState "no_such_mission").1 rfl⟩

/-! #### Experience and leveling -/

theorem addExperienceP_experience (p : PlayerIdentity) (a : Nat) :
    (addExperienceP p a).experience = p.experience + a := by
  simp only [addExperienceP]
  split <;> rfl

theorem addExperienceP_level (p : PlayerIdentity) (a : Nat) :
    (addExperienceP p a).level = max p.level ((p.experience + a) / 100 + 1) := by
  simp only [addExperienceP]
  split <;> (rename_i hcmp; simp only) <;> omega

theorem playerEvolves_refl (s : ServiceState) : PlayerEvolves s s :=
  ⟨id, le_refl _⟩

theorem playerEvolves_trans {s1 s2 s3 : ServiceState}
    (h1 : PlayerEvolves s1 s2) (h2 : PlayerEvolves s2 s3) : PlayerEvolves s1 s3 :=
  ⟨fun hi => h2.1 (h1.1 hi), le_trans h1.2 h2.2⟩

theorem playerEvolves_of_eqPI {s s' : ServiceState}
    (h : s'.playerIdentity = s.playerIdentity) : PlayerEvolves s s' := by
  constructor
  · intro hi p hp
    rw [h] at hp
    exact hi p hp
  · unfold levelOf
    rw [h]

theorem playerEvolves_mapPI {s s' : ServiceState} {f : PlayerIdentity → PlayerIdentity}
    (h : s'.playerIdentity = s.playerIdentity.map f)
    (hl : ∀ p, (f p).level = p.level) (he : ∀ p, (f p).experience = p.experience) :
    PlayerEvolves s s' := by
  constructor
  · intro hi p' hp'
    rw [h] at hp'
    cases hp : s.playerIdentity with
    | none => rw [hp] at hp'; simp at hp'
    | some p =>
      rw [hp] at hp'
      simp only [Option.map_some', Option.some.injEq] at hp'
      rw [← hp', hl, he]
      exact hi p hp
  · unfold levelOf
    rw [h]
    cases hp : s.playerIdentity with
    | none => simp
    | some p => simp [hl]

theorem playerEvolves_addExperience (s : ServiceState) (a : Nat) :
    PlayerEvolves s (addExperience s a) := by
  constructor
  · intro hi p' hp'
    simp only [addExperience] at hp'
    cases hp : s.playerIdentity with
    | none => rw [hp] at hp'; simp at hp'
    | some p =>
      rw [hp] at hp'
      simp only [Option.map_some', Option.some.injEq] at hp'
      rw [← hp', addExperienceP_level, addExperienceP_experience, hi p hp]
      have hmono : p.experience / 100 ≤ (p.experience + a) / 100 :=
        Nat.div_le_div_right (Nat.le_add_right p.experience a)
      omega
  · unfold levelOf
    simp only [addExperience]
    cases hp : s.playerIdentity with
    | none => simp
    | some p => simp [addExperienceP_level]

theorem playerEvolves_addTraitExperience (s : ServiceState) (tid : String) (a : Nat) :
    PlayerEvolves s (addTraitExperience s tid a) :=
  playerEvolves_mapPI rfl (fun _ => rfl) (fun _ => rfl)

theorem playerEvolves_addNectar (s : ServiceState) (a : Nat) :
    PlayerEvolves s (addNectar s a) :=
  playerEvolves_mapPI rfl (fun _ => rfl) (fun _ => rfl)

theorem playerEvolves_addResource (s : ServiceState) (rid : String) (a : Nat) :
    PlayerEvolves s (addResource s rid a) :=
  playerEvolves_mapPI rfl (fun _ => rfl) (fun _ => rfl)

theorem playerEvolves_withCounts (s : ServiceState) (ac : List (String × Nat)) :
    PlayerEvolves s { s with actionCounts := ac } :=
  playerEvolves_of_eqPI rfl

theorem playerEvolves_withMissions (s : ServiceState) (ms : List Mission)
    (cm : List String) :
    PlayerEvolves s { s with activeMissions := ms, completedMissions := cm } :=
  playerEvolves_of_eqPI rfl

theorem playerEvolves_withMissionsOnly (s : ServiceState) (ms : List Mission) :
    PlayerEvolves s { s with activeMissions := ms } :=
  playerEvolves_of_eqPI rfl

theorem playerEvolves_checkAll (s : ServiceState) :
    PlayerEvolves s (checkAllMissionsCompleted s) :=
  playerEvolves_of_eqPI (checkAll_playerIdentity s)

theorem playerEvolves_applyReward (s : ServiceState) (r : MissionReward) :
    PlayerEvolves s (applyReward s r) := by
  rcases r with ⟨t, v⟩
  cases t with
  | xp => exact playerEvolves_addExperience s v.asNum
  | trait => exact playerEvolves_addTraitExperience s v.asStr 1
  | nectar => exact playerEvolves_addNectar s v.asNum
  | resource => exact playerEvolves_addResource s v.asStr 1
  | achievement => exact playerEvolves_refl s

theorem playerEvolves_foldl {α : Type} (f : ServiceState → α → ServiceState)
    (hstep : ∀ s x, PlayerEvolves s (f s x)) (l : List α) (s : ServiceState) :
    PlayerEvolves s (l.foldl f s) := by
  induction l generalizing s with
  | nil => exact playerEvolves_refl s
  | cons x xs ih => exact playerEvolves_trans (hstep s x) (ih (f s x))

theorem playerEvolves_completeMission (s : ServiceState) (mid : String) :
    PlayerEvolves s (completeMission s mid) := by
  cases hf : findMission s.activeMissions mid with
  | none => rw [completeMission_eq_none hf]; exact playerEvolves_refl s
  | some m =>
    cases hcm : m.completed with
    | true => rw [completeMission_eq_completed hf hcm]; exact playerEvolves_refl s
    | false =>
      rw [completeMission_eq_run hf hcm]
      exact playerEvolves_trans (playerEvolves_withMissions s _ _)
        (playerEvolves_trans (playerEvolves_foldl applyReward playerEvolves_applyReward _ _)
          (playerEvolves_checkAll _))

theorem playerEvolves_processReqStep (s : ServiceState) (mid : String)
    (a : ActionType) (t : String) (i : Nat) :
    PlayerEvolves s (processReqStep s mid a t i) := by
  cases hf : findMission s.activeMissions mid with
  | none => rw [processReqStep_eq_noMission hf]; exact playerEvolves_refl s
  | some m =>
    cases hr : m.requirements[i]? with
    | none => rw [processReqStep_eq_noReq hf hr]; exact playerEvolves_refl s
    | some r =>
      cases hm : reqMatches r a t with
      | false => rw [processReqStep_eq_noMatch hf hr hm]; exact playerEvolves_refl s
      | true =>
        rw [processReqStep_eq_match hf hr hm]
        split
        · exact playerEvolves_trans (playerEvolves_withMissionsOnly s _)
            (playerEvolves_completeMission _ mid)
        · exact playerEvolves_withMissionsOnly s _

theorem playerEvolves_updateMissionOne (s : ServiceState) (mid : String)
    (a : ActionType) (t : String) :
    PlayerEvolves s (updateMissionOne s mid a t) := by
  cases hf : findMission s.activeMissions mid with
  | none => rw [updateMissionOne_eq_none hf]; exact playerEvolves_refl s
  | some m =>
    cases hcm : m.completed with
    | true => rw [updateMissionOne_eq_completed hf hcm]; exact playerEvolves_refl s
    | false =>
      rw [updateMissionOne_eq_run hf hcm]
      exact playerEvolves_foldl _ (fun st i => playerEvolves_processReqStep st mid a t i) _ s

theorem playerEvolves_updateMissionProgress (s : ServiceState)
    (a : ActionType) (t : String) :
    PlayerEvolves s (updateMissionProgress s a t) :=
  playerEvolves_foldl _ (fun st mid => playerEvolves_updateMissionOne st mid a t) _ s

theorem playerEvolves_trackBlockPlace (s : ServiceState) (b : String) :
    PlayerEvolves s (trackBlockPlace s b) := by
  cases hc : s.isConnected with
  | false =>
    rw [(trackers_noop_of_disconnected s b hc).1]
    exact playerEvolves_refl s
  | true =>
    rw [trackBlockPlace_eq_connected hc]
    exact playerEvolves_trans (playerEvolves_withCounts s _)
      (playerEvolves_updateMissionProgress _ _ _)

theorem playerEvolves_trackBlockBreak (s : ServiceState) (b : String) :
    PlayerEvolves s (trackBlockBreak s b) := by
  cases hc : s.isConnected with
  | false =>
    rw [(trackers_noop_of_disconnected s b hc).2]
    exact playerEvolves_refl s
  | true =>
    rw [trackBlockBreak_eq_connected hc]
    exact playerEvolves_trans (playerEvolves_withCounts s _)
      (playerEvolves_updateMissionProgress _ _ _)

theorem playerEvolves_applyOp (s : ServiceState) (op : GameOp) :
    PlayerEvolves s (applyOp s op) := by
  cases op with
  | placeBlock b => exact playerEvolves_trackBlockPlace s b
  | breakBlock b => exact playerEvolves_trackBlockBreak s b

theorem playerEvolves_applyTrace (s : ServiceState) (ops : List GameOp) :
    PlayerEvolves s (applyTrace s ops) :=
  playerEvolves_foldl applyOp playerEvolves_applyOp ops s

/-- Claim C2: after every addExperience call the player's level equals
floor(experience / 100) + 1 (the derivation invariant is preserved from any
state satisfying it), and the level never decreases across any sequence of
operations within a session. -/
theorem claim_C2 (s : ServiceState) (hs : levelInv s) :
    (∀ amount, levelInv (addExperience s amount) ∧
      levelOf s ≤ levelOf (addExperience s amount)) ∧
    (∀ ops : List GameOp, levelInv (applyTrace s ops) ∧
      levelOf s ≤ levelOf (applyTrace s ops)) := by
  constructor
  · intro amount
    have h := playerEvolves_addExperience s amount
    exact ⟨h.1 hs, h.2⟩
  · intro ops
    have h := playerEvolves_applyTrace s ops
    exact ⟨h.1 hs, h.2⟩

/-- Witness for C2 at the fresh connected state with a concrete award and a
concrete trace. -/
theorem claim_C2_witness :
    levelInv connectedState ∧
    (levelInv (addExperience connectedState 250) ∧
     levelOf connectedState ≤ levelOf (addExperience connectedState 250)) ∧
    (levelInv (applyTrace connectedState [GameOp.placeBlock "STONE"]) ∧
     levelOf connectedState ≤ levelOf (applyTrace connectedState [GameOp.placeBlock "STONE"])) :=
  have hs : levelInv connectedState := fun p hp => by cases hp; rfl
  ⟨hs, (claim_C2 connectedState hs).1 250,
       (claim_C2 connectedState hs).2 [GameOp.placeBlock "STONE"]⟩

/-! #### Reward application -/

theorem find?_growTraitList (ts : List PlayerTrait) (tid : String) (a : Nat) :
    ((growTraitList ts tid a).find? (fun t => t.id == tid)).map (fun t => t.value) =
      ((ts.find? (fun t => t.id == tid)).map (fun t => t.value)).map (fun v => v + a) := by
  induction ts with
  | nil => rfl
  | cons t rest ih =>
    by_cases ht : t.id = tid
    · simp [growTraitList, ht]
    · simp only [growTraitList]
      rw [if_neg (by simp [ht])]
      rw [List.find?_cons_of_neg _ (by simp [ht]), List.find?_cons_of_neg _ (by simp [ht])]
      exact ih

theorem find?_growResourceList (rs : List Resource) (rid : String) (a : Nat) :
    ((growResourceList rs rid a).find? (fun r => r.id == rid)).map (fun r => r.amount) =
      ((rs.find? (fun r => r.id == rid)).map (fun r => r.amount)).map (fun v => v + a) := by
  induction rs with
  | nil => rfl
  | cons r rest ih =>
    by_cases hr : r.id = rid
    · simp [growResourceList, hr]
    · simp only [growResourceList]
      rw [if_neg (by simp [hr])]
      rw [List.find?_cons_of_neg _ (by simp [hr]), List.find?_cons_of_neg _ (by simp [hr])]
      exact ih

theorem growTraitList_of_not_mem (ts : List PlayerTrait) (tid : String) (a : Nat)
    (h : ∀ t ∈ ts, t.id ≠ tid) : growTraitList ts tid a = ts := by
  induction ts with
  | nil => rfl
  | cons t rest ih =>
    have ht : ¬ t.id = tid := h t (by simp)
    simp only [growTraitList]
    rw [if_neg (by simp [ht])]
    rw [ih (fun u hu => h u (by simp [hu]))]

theorem growResourceList_of_not_mem (rs : List Resource) (rid : String) (a : Nat)
    (h : ∀ r ∈ rs, r.id ≠ rid) : growResourceList rs rid a = rs := by
  induction rs with
  | nil => rfl
  | cons r rest ih =>
    have hr : ¬ r.id = rid := h r (by simp)
    simp only [growResourceList]
    rw [if_neg (by simp [hr])]
    rw [ih (fun u hu => h u (by simp [hu]))]

theorem addTraitExperience_unknown (s : ServiceState) (p : PlayerIdentity)
    (hp : s.playerIdentity = some p) (tid : String) (a : Nat)
    (h : ∀ t ∈ p.traits, t.id ≠ tid) : addTraitExperience s tid a = s := by
  unfold addTraitExperience
  rw [hp]
  simp only [Option.map_some']
  rw [growTraitList_of_not_mem p.traits tid a h]
  rw [← hp]

theorem addResource_unknown (s : ServiceState) (p : PlayerIdentity)
    (hp : s.playerIdentity = some p) (rid : String) (a : Nat)
    (h : ∀ r ∈ p.resources, r.id ≠ rid) : addResource s rid a = s := by
  unfold addResource
  rw [hp]
  simp only [Option.map_some']
  rw [growResourceList_of_not_mem p.resources rid a h]
  rw [← hp]

/-- Claim C6: a reward that references a trait or resource id outside the
fixed catalog never fails: the whole state (hence the player record) is left
unchanged by that reward, and the remaining rewards of the list are still
applied. -/
theorem claim_C6 (s : ServiceState) (p : PlayerIdentity)
    (hp : s.playerIdentity = some p) (tid rid : String)
    (ht : ∀ t ∈ p.traits, t.id ≠ tid) (hr : ∀ r ∈ p.resources, r.id ≠ rid) :
    applyReward s { type := .trait, value := .str tid } = s ∧
    applyReward s { type := .resource, value := .str rid } = s ∧
    (∀ rest : List MissionReward,
      (({ type := .trait, value := .str tid } : MissionReward) :: rest).foldl
          applyReward s = rest.foldl applyReward s ∧
      (({ type := .resource, value := .str rid } : MissionReward) :: rest).foldl
          applyReward s = rest.foldl applyReward s) := by
  have h1 : applyReward s { type := .trait, value := .str tid } = s :=
    addTraitExperience_unknown s p hp tid 1 ht
  have h2 : applyReward s { type := .resource, value := .str rid } = s :=
    addResource_unknown s p hp rid 1 hr
  refine ⟨h1, h2, fun rest => ⟨?_, ?_⟩⟩
  · rw [List.foldl_cons, h1]
  · rw [List.foldl_cons, h2]

/-- Witness for C6: ids absent from the fixed catalogs of the fresh session. -/
theorem claim_C6_witness :
    (∀ t ∈ getDefaultTraits, t.id ≠ "no_such_trait") ∧
    (∀ r ∈ getDefaultResources, r.id ≠ "no_such_resource") ∧
    applyReward connectedState { type := .trait, value := .str "no_such_trait" } =
      connectedState ∧
    applyReward connectedState { type := .resource, value := .str "no_such_resource" } =
      connectedState ∧
    (({ type := .trait, value := .str "no_such_trait" } : MissionReward) ::
        [({ type := .xp, value := .num 7 } : MissionReward)]).foldl
        applyReward connectedState =
      [({ type := .xp, value := .num 7 } : MissionReward)].foldl
        applyReward connectedState := by
  have ht : ∀ t ∈ getDefaultTraits, t.id ≠ "no_such_trait" := by decide
  have hr : ∀ r ∈ getDefaultResources, r.id ≠ "no_such_resource" := by decide
  have h := claim_C6 connectedState _ rfl "no_such_trait" "no_such_resource" ht hr
  exact ⟨ht, hr, h.1, h.2.1, (h.2.2 [{ type := .xp, value := .num 7 }]).1⟩

theorem expOf_applyReward_xp (s : ServiceState) (p : PlayerIdentity)
    (hp : s.playerIdentity = some p) (n : Nat) :
    expOf (applyReward s { type := .xp, value := .num n }) = expOf s + n := by
  show expOf (addExperience s n) = expOf s + n
  unfold expOf addExperience
  rw [hp]
  simp [addExperienceP_experience]

theorem nectarOf_applyReward_nectar (s : ServiceState) (p : PlayerIdentity)
    (hp : s.playerIdentity = some p) (n : Nat) :
    nectarOf (applyReward s { type := .nectar, value := .num n }) = nectarOf s + n := by
  show nectarOf (addNectar s n) = nectarOf s + n
  unfold nectarOf addNectar
  rw [hp]
  simp

theorem traitValOf_applyReward_trait (s : ServiceState) (tid : String) :
    traitValOf (applyReward s { type := .trait, value := .str tid }) tid =
      (traitValOf s tid).map (fun v => v + 1) := by
  show traitValOf (addTraitExperience s tid 1) tid = _
  unfold traitValOf addTraitExperience
  cases hp : s.playerIdentity with
  | none => simp
  | some p =>
    simp only [Option.map_some', Option.some_bind]
    rw [find?_growTraitList]

theorem resourceAmtOf_applyReward_resource (s : ServiceState) (rid : String) :
    resourceAmtOf (applyReward s { type := .resource, value := .str rid }) rid =
      (resourceAmtOf s rid).map (fun v => v + 1) := by
  show resourceAmtOf (addResource s rid 1) rid = _
  unfold resourceAmtOf addResource
  cases hp : s.playerIdentity with
  | none => simp
  | some p =>
    simp only [Option.map_some', Option.some_bind]
    rw [find?_growResourceList]

/-- Claim C4: the reward mapping at completion: an xp reward adds its numeric
amount to experience, a trait reward grows the named trait by 1, a nectar
reward adds its numeric amount to the currency balance, a resource reward
grows the named resource's amount by 1, an achievement reward leaves the
state untouched, and completing a fresh mission applies exactly its reward
list, in list order, to the player record. -/
theorem claim_C4 (s : ServiceState) (p : PlayerIdentity)
    (hp : s.playerIdentity = some p) :
    (∀ n, expOf (applyReward s { type := .xp, value := .num n }) = expOf s + n) ∧
    (∀ tid, traitValOf (applyReward s { type := .trait, value := .str tid }) tid =
      (traitValOf s tid).map (fun v => v + 1)) ∧
    (∀ n, nectarOf (applyReward s { type := .nectar, value := .num n }) =
      nectarOf s + n) ∧
    (∀ rid, resourceAmtOf (applyReward s { type := .resource, value := .str rid }) rid =
      (resourceAmtOf s rid).map (fun v => v + 1)) ∧
    (∀ v, applyReward s { type := .achievement, value := v } = s) ∧
    (∀ mid m, findMission s.activeMissions mid = some m → m.completed = false →
      (completeMission s mid).playerIdentity =
        (m.rewards.foldl applyReward s).playerIdentity) := by
  refine ⟨fun n => expOf_applyReward_xp s p hp n,
          fun tid => traitValOf_applyReward_trait s tid,
          fun n => nectarOf_applyReward_nectar s p hp n,
          fun rid => resourceAmtOf_applyReward_resource s rid,
          fun v => rfl,
          fun mid m hf hc => ?_⟩
  rw [completeMission_eq_run hf hc, checkAll_playerIdentity]
  exact foldl_applyReward_playerIdentity_congr m.rewards _ s rfl

/-- Witness for C4 on the fresh session and the first_builder mission. -/
theorem claim_C4_witness :
    expOf (applyReward connectedState { type := .xp, value := .num 10 }) =
      expOf connectedState + 10 ∧
    traitValOf (applyReward connectedState { type := .trait, value := .str "builder" })
        "builder" = (traitValOf connectedState "builder").map (fun v => v + 1) ∧
    nectarOf (applyReward connectedState { type := .nectar, value := .num 5 }) =
      nectarOf connectedState + 5 ∧
    resourceAmtOf (applyReward connectedState { type := .resource, value := .str "stone" })
        "stone" = (resourceAmtOf connectedState "stone").map (fun v => v + 1) ∧
    applyReward connectedState { type := .achievement, value := .str "done" } =
      connectedState ∧
    (completeMission connectedState "first_builder").playerIdentity =
      ([({ type := .xp, value := .num 10 } : MissionReward),
        { type := .nectar, value := .num 5 },
        { type := .trait, value := .str "builder" }].foldl
          applyReward connectedState).playerIdentity := by
  have h := claim_C4 connectedState _ rfl
  exact ⟨h.1 10, h.2.1 "builder", h.2.2.1 5, h.2.2.2.1 "stone",
         h.2.2.2.2.1 (.str "done"),
         h.2.2.2.2.2 "first_builder" _ rfl rfl⟩

/-! #### Counter overrun past completion -/

/-- Claim C7: a matching action event increments a requirement's counter with
no upper clamp, so along some sequence of action events a requirement's
current exceeds its amount once the mission's progress has reached 1 and the
mission is complete.  Concretely: on overflowMission, the second block
placement completes the mission at its first row and then still bumps the
already-satisfied second row from 1 to 2 > 1. -/
theorem claim_C7 :
    ∃ m : Mission,
      findMission (applyTrace overflowState
          [GameOp.placeBlock "X", GameOp.placeBlock "X"]).activeMissions "over" = some m ∧
      m.completed = true ∧ m.progress = 1 ∧
      ∃ r : MissionRequirement, m.requirements[1]? = some r ∧ r.amount < r.current := by
  refine ⟨{ id := "over", title := "Over", description := "two any-place rows",
            requirements :=
              [ { type := .block_place, target := "any", amount := 2, current := 2 },
                { type := .block_place, target := "any", amount := 1, current := 2 } ],
            rewards := [], completed := true, progress := 1 }, ?_, rfl, rfl,
          ⟨{ type := .block_place, target := "any", amount := 1, current := 2 }, rfl,
           by decide⟩⟩
  with_unfolding_all decide

/-! #### Pure branch equations -/

theorem completedTrue_id (m : Mission) :
    ({ m with completed := true } : Mission).id = m.id := rfl

theorem pureReqStep_eq_noReq {a : ActionType} {t : String} {m : Mission} {i : Nat}
    (hr : m.requirements[i]? = none) : pureReqStep a t m i = m := by
  simp [pureReqStep, hr]

theorem pureReqStep_eq_noMatch {a : ActionType} {t : String} {m : Mission} {i : Nat}
    {r : MissionRequirement}
    (hr : m.requirements[i]? = some r) (hm : reqMatches r a t = false) :
    pureReqStep a t m i = m := by
  simp [pureReqStep, hr, hm]

theorem pureReqStep_eq_match {a : ActionType} {t : String} {m : Mission} {i : Nat}
    {r : MissionRequirement}
    (hr : m.requirements[i]? = some r) (hm : reqMatches r a t = true) :
    pureReqStep a t m i =
      if 1 ≤ (bumpedMission m i).progress ∧ m.completed = false
      then { bumpedMission m i with completed := true }
      else bumpedMission m i := by
  simp only [pureReqStep, hr, hm, if_true, bumpedMission_completed]

/-! #### Frame and projection lemmas for the service-level update -/

theorem foldl_eq_field {α β : Type} (f : ServiceState → α → ServiceState)
    (g : ServiceState → β) (l : List α)
    (hstep : ∀ s x, x ∈ l → g (f s x) = g s) (s : ServiceState) :
    g (l.foldl f s) = g s := by
  induction l generalizing s with
  | nil => rfl
  | cons x xs ih =>
    rw [List.foldl_cons,
      ih (fun s' y hy => hstep s' y (List.mem_cons_of_mem x hy)) (f s x)]
    exact hstep s x (List.mem_cons_self x xs)

theorem completeMission_ids (s : ServiceState) (mid : String) :
    (completeMission s mid).activeMissions.map (fun m => m.id) =
      s.activeMissions.map (fun m => m.id) := by
  cases hf : findMission s.activeMissions mid with
  | none => rw [completeMission_eq_none hf]
  | some m =>
    cases hcm : m.completed with
    | true => rw [completeMission_eq_completed hf hcm]
    | false =>
      rw [completeMission_eq_run hf hcm, checkAll_activeMissions,
        foldl_applyReward_activeMissions]
      exact setMission_map_id _ _ ((completedTrue_id m).trans (findMission_id hf))

theorem completeMission_isConnected (s : ServiceState) (mid : String) :
    (completeMission s mid).isConnected = s.isConnected := by
  cases hf : findMission s.activeMissions mid with
  | none => rw [completeMission_eq_none hf]
  | some m =>
    cases hcm : m.completed with
    | true => rw [completeMission_eq_completed hf hcm]
    | false =>
      rw [completeMission_eq_run hf hcm, checkAll_isConnected,
        foldl_applyReward_isConnected]

theorem completeMission_findMission_frame (s : ServiceState) (mid mid' : String)
    (hne : mid' ≠ mid) :
    findMission (completeMission s mid).activeMissions mid' =
      findMission s.activeMissions mid' := by
  cases hf : findMission s.activeMissions mid with
  | none => rw [completeMission_eq_none hf]
  | some m =>
    cases hcm : m.completed with
    | true => rw [completeMission_eq_completed hf hcm]
    | false =>
      rw [completeMission_eq_run hf hcm, checkAll_activeMissions,
        foldl_applyReward_activeMissions]
      exact findMission_setMission_ne _ _
        ((completedTrue_id m).trans (findMission_id hf)) mid' hne

theorem processReqStep_findMission_self (s : ServiceState) (mid : String)
    (a : ActionType) (t : String) (i : Nat) :
    findMission (processReqStep s mid a t i).activeMissions mid =
      (findMission s.activeMissions mid).map (fun m => pureReqStep a t m i) := by
  cases hf : findMission s.activeMissions mid with
  | none => rw [processReqStep_eq_noMission hf, hf]; rfl
  | some m =>
    rw [Option.map_some']
    cases hr : m.requirements[i]? with
    | none => rw [processReqStep_eq_noReq hf hr, pureReqStep_eq_noReq hr, hf]
    | some r =>
      cases hm : reqMatches r a t with
      | false => rw [processReqStep_eq_noMatch hf hr hm, pureReqStep_eq_noMatch hr hm, hf]
      | true =>
        rw [processReqStep_eq_match hf hr hm, pureReqStep_eq_match hr hm]
        have hid : (bumpedMission m i).id = mid := by
          rw [bumpedMission_id]; exact findMission_id hf
        by_cases hcond : 1 ≤ (bumpedMission m i).progress ∧ m.completed = false
        · rw [if_pos hcond, if_pos hcond]
          have hfind1 : findMission
              (setMission s.activeMissions mid (bumpedMission m i)) mid =
              some (bumpedMission m i) := findMission_setMission_self hf hid
          have hbc : (bumpedMission m i).completed = false := by
            rw [bumpedMission_completed]; exact hcond.2
          exact completeMission_findMission_self _ mid (bumpedMission m i) hfind1 hbc
        · rw [if_neg hcond, if_neg hcond]
          exact findMission_setMission_self hf hid

theorem processReqStep_findMission_frame (s : ServiceState) (mid : String)
    (a : ActionType) (t : String) (i : Nat) (mid' : String) (hne : mid' ≠ mid) :
    findMission (processReqStep s mid a t i).activeMissions mid' =
      findMission s.activeMissions mid' := by
  cases hf : findMission s.activeMissions mid with
  | none => rw [processReqStep_eq_noMission hf]
  | some m =>
    cases hr : m.requirements[i]? with
    | none => rw [processReqStep_eq_noReq hf hr]
    | some r =>
      cases hm : reqMatches r a t with
      | false => rw [processReqStep_eq_noMatch hf hr hm]
      | true =>
        rw [processReqStep_eq_match hf hr hm]
        have hid : (bumpedMission m i).id = mid := by
          rw [bumpedMission_id]; exact findMission_id hf
        by_cases hcond : 1 ≤ (bumpedMission m i).progress ∧ m.completed = false
        · rw [if_pos hcond]
          rw [completeMission_findMission_frame _ mid mid' hne]
          exact findMission_setMission_ne _ _ hid mid' hne
        · rw [if_neg hcond]
          exact findMission_setMission_ne _ _ hid mid' hne

theorem processReqStep_ids (s : ServiceState) (mid : String)
    (a : ActionType) (t : String) (i : Nat) :
    (processReqStep s mid a t i).activeMissions.map (fun m => m.id) =
      s.activeMissions.map (fun m => m.id) := by
  cases hf : findMission s.activeMissions mid with
  | none => rw [processReqStep_eq_noMission hf]
  | some m =>
    cases hr : m.requirements[i]? with
    | none => rw [processReqStep_eq_noReq hf hr]
    | some r =>
      cases hm : reqMatches r a t with
      | false => rw [processReqStep_eq_noMatch hf hr hm]
      | true =>
        rw [processReqStep_eq_match hf hr hm]
        have hid : (bumpedMission m i).id = mid := by
          rw [bumpedMission_id]; exact findMission_id hf
        by_cases hcond : 1 ≤ (bumpedMission m i).progress ∧ m.completed = false
        · rw [if_pos hcond, completeMission_ids]
          exact setMission_map_id _ _ hid
        · rw [if_neg hcond]
          exact setMission_map_id _ _ hid

theorem processReqStep_isConnected (s : ServiceState) (mid : String)
    (a : ActionType) (t : String) (i : Nat) :
    (processReqStep s mid a t i).isConnected = s.isConnected := by
  cases hf : findMission s.activeMissions mid with
  | none => rw [processReqStep_eq_noMission hf]
  | some m =>
    cases hr : m.requirements[i]? with
    | none => rw [processReqStep_eq_noReq hf hr]
    | some r =>
      cases hm : reqMatches r a t with
      | false => rw [processReqStep_eq_noMatch hf hr hm]
      | true =>
        rw [processReqStep_eq_match hf hr hm]
        by_cases hcond : 1 ≤ (bumpedMission m i).progress ∧ m.completed = false
        · rw [if_pos hcond, completeMission_isConnected]
        · rw [if_neg hcond]

theorem foldl_processReqStep_findMission_self (s : ServiceState) (mid : String)
    (a : ActionType) (t : String) (l : List Nat) (m : Mission)
    (hf : findMission s.activeMissions mid = some m) :
    findMission ((l.foldl (fun st i => processReqStep st mid a t i) s)).activeMissions mid =
      some (l.foldl (fun mm i => pureReqStep a t mm i) m) := by
  induction l generalizing s m with
  | nil => exact hf
  | cons i rest ih =>
    rw [List.foldl_cons, List.foldl_cons]
    refine ih _ _ ?_
    rw [processReqStep_findMission_self, hf, Option.map_some']

theorem updateMissionOne_findMission_self (s : ServiceState) (mid : String)
    (a : ActionType) (t : String) :
    findMission (updateMissionOne s mid a t).activeMissions mid =
      (findMission s.activeMissions mid).map (fun m => pureMissionUpdate a t m) := by
  cases hf : findMission s.activeMissions mid with
  | none => rw [updateMissionOne_eq_none hf, hf]; rfl
  | some m =>
    rw [Option.map_some']
    cases hcm : m.completed with
    | true =>
      rw [updateMissionOne_eq_completed hf hcm, hf]
      unfold pureMissionUpdate
      rw [if_pos hcm]
    | false =>
      rw [updateMissionOne_eq_run hf hcm]
      unfold pureMissionUpdate
      rw [if_neg (by simp [hcm])]
      exact foldl_processReqStep_findMission_self s mid a t _ m hf

theorem updateMissionOne_findMission_frame (s : ServiceState) (mid : String)
    (a : ActionType) (t : String) (mid' : String) (hne : mid' ≠ mid) :
    findMission (updateMissionOne s mid a t).activeMissions mid' =
      findMission s.activeMissions mid' := by
  cases hf : findMission s.activeMissions mid with
  | none => rw [updateMissionOne_eq_none hf]
  | some m =>
    cases hcm : m.completed with
    | true => rw [updateMissionOne_eq_completed hf hcm]
    | false =>
      rw [updateMissionOne_eq_run hf hcm]
      exact foldl_eq_field _ (fun st => findMission st.activeMissions mid') _
        (fun st i _ => processReqStep_findMission_frame st mid a t i mid' hne) s

theorem updateMissionOne_ids (s : ServiceState) (mid : String)
    (a : ActionType) (t : String) :
    (updateMissionOne s mid a t).activeMissions.map (fun m => m.id) =
      s.activeMissions.map (fun m => m.id) := by
  cases hf : findMission s.activeMissions mid with
  | none => rw [updateMissionOne_eq_none hf]
  | some m =>
    cases hcm : m.completed with
    | true => rw [updateMissionOne_eq_completed hf hcm]
    | false =>
      rw [updateMissionOne_eq_run hf hcm]
      exact foldl_eq_field _ (fun st => st.activeMissions.map (fun m => m.id)) _
        (fun st i _ => processReqStep_ids st mid a t i) s

theorem updateMissionOne_isConnected (s : ServiceState) (mid : String)
    (a : ActionType) (t : String) :
    (updateMissionOne s mid a t).isConnected = s.isConnected := by
  cases hf : findMission s.activeMissions mid with
  | none => rw [updateMissionOne_eq_none hf]
  | some m =>
    cases hcm : m.completed with
    | true => rw [updateMissionOne_eq_completed hf hcm]
    | false =>
      rw [updateMissionOne_eq_run hf hcm]
      exact foldl_eq_field _ (fun st => st.isConnected) _
        (fun st i _ => processReqStep_isConnected st mid a t i) s

theorem foldl_updateMissionOne_frame (s : ServiceState) (a : ActionType) (t : String)
    (l : List String) (mid : String) (hl : mid ∉ l) :
    findMission ((l.foldl (fun st mid' => updateMissionOne st mid' a t) s)).activeMissions
        mid = findMission s.activeMissions mid :=
  foldl_eq_field _ (fun st => findMission st.activeMissions mid) l
    (fun st mid' hmem =>
      updateMissionOne_findMission_frame st mid' a t mid
        (fun he => hl (he ▸ hmem))) s

theorem findMission_eq_none_of_not_mem (ms : List Mission) (mid : String)
    (h : mid ∉ ms.map (fun m => m.id)) : findMission ms mid = none := by
  induction ms with
  | nil => rfl
  | cons a l ih =>
    rw [findMission_cons]
    rw [if_neg (fun ha => h (by simp [ha]))]
    exact ih (fun hm => h (by simp at hm ⊢; exact Or.inr hm))

theorem updateMissionProgress_findMission (s : ServiceState)
    (a : ActionType) (t : String) (hn : NodupIds s) (mid : String) :
    findMission (updateMissionProgress s a t).activeMissions mid =
      (findMission s.activeMissions mid).map (fun m => pureMissionUpdate a t m) := by
  unfold updateMissionProgress
  by_cases hmem : mid ∈ s.activeMissions.map (fun m => m.id)
  · obtain ⟨l1, l2, hsplit⟩ := List.append_of_mem hmem
    rw [hsplit]
    have hnodup : (l1 ++ mid :: l2).Nodup := hsplit ▸ hn
    have hl1 : mid ∉ l1 := by
      intro hc
      have := List.disjoint_of_nodup_append hnodup
      exact this hc (by simp)
    have hl2 : mid ∉ l2 := by
      have := (List.nodup_append.mp hnodup).2.1
      simp at this
      exact this.1
    rw [List.foldl_append]
    have hstage1 :
        findMission ((l1.foldl (fun st mid' => updateMissionOne st mid' a t) s)).activeMissions
          mid = findMission s.activeMissions mid :=
      foldl_updateMissionOne_frame s a t l1 mid hl1
    rw [List.foldl_cons]
    have hstage2 := updateMissionOne_findMission_self
      (l1.foldl (fun st mid' => updateMissionOne st mid' a t) s) mid a t
    rw [hstage1] at hstage2
    rw [foldl_updateMissionOne_frame _ a t l2 mid hl2, hstage2]
  · have hnone : findMission s.activeMissions mid = none :=
      findMission_eq_none_of_not_mem _ _ hmem
    rw [hnone, Option.map_none']
    have : ∀ x ∈ s.activeMissions.map (fun m => m.id), x ≠ mid := by
      intro x hx he
      exact hmem (he ▸ hx)
    rw [foldl_eq_field _ (fun st => findMission st.activeMissions mid) _
      (fun st mid' hmem' =>
        updateMissionOne_findMission_frame st mid' a t mid
          (fun he => (this mid' hmem') he.symm)) s]
    exact hnone

theorem updateMissionProgress_ids (s : ServiceState) (a : ActionType) (t : String) :
    (updateMissionProgress s a t).activeMissions.map (fun m => m.id) =
      s.activeMissions.map (fun m => m.id) :=
  foldl_eq_field _ (fun st => st.activeMissions.map (fun m => m.id)) _
    (fun st mid' _ => updateMissionOne_ids st mid' a t) s

theorem updateMissionProgress_isConnected (s : ServiceState) (a : ActionType)
    (t : String) :
    (updateMissionProgress s a t).isConnected = s.isConnected :=
  foldl_eq_field _ (fun st => st.isConnected) _
    (fun st mid' _ => updateMissionOne_isConnected st mid' a t) s

theorem trackBlockPlace_findMission (s : ServiceState) (b : String) (mid : String)
    (hn : NodupIds s) (hc : s.isConnected = true) :
    findMission (trackBlockPlace s b).activeMissions mid =
      (findMission s.activeMissions mid).map
        (fun m => pureMissionUpdate ActionType.block_place b m) := by
  rw [trackBlockPlace_eq_connected hc]
  exact updateMissionProgress_findMission
    { s with actionCounts :=
        setCount s.actionCounts ("place_" ++ b) (getCount s.actionCounts ("place_" ++ b) + 1) }
    ActionType.block_place b hn mid

theorem trackBlockBreak_findMission (s : ServiceState) (b : String) (mid : String)
    (hn : NodupIds s) (hc : s.isConnected = true) :
    findMission (trackBlockBreak s b).activeMissions mid =
      (findMission s.activeMissions mid).map
        (fun m => pureMissionUpdate ActionType.block_break b m) := by
  rw [trackBlockBreak_eq_connected hc]
  exact updateMissionProgress_findMission
    { s with actionCounts :=
        setCount s.actionCounts ("break_" ++ b) (getCount s.actionCounts ("break_" ++ b) + 1) }
    ActionType.block_break b hn mid

theorem applyOp_findMission (s : ServiceState) (op : GameOp) (mid : String)
    (hn : NodupIds s) (hc : s.isConnected = true) :
    findMission (applyOp s op).activeMissions mid =
      (findMission s.activeMissions mid).map
        (fun m => pureMissionUpdate op.actionType op.target m) := by
  cases op with
  | placeBlock b => exact trackBlockPlace_findMission s b mid hn hc
  | breakBlock b => exact trackBlockBreak_findMission s b mid hn hc

theorem trackBlockPlace_ids (s : ServiceState) (b : String) :
    (trackBlockPlace s b).activeMissions.map (fun m => m.id) =
      s.activeMissions.map (fun m => m.id) := by
  cases hc : s.isConnected with
  | false => rw [(trackers_noop_of_disconnected s b hc).1]
  | true => rw [trackBlockPlace_eq_connected hc]; exact updateMissionProgress_ids _ _ _

theorem trackBlockBreak_ids (s : ServiceState) (b : String) :
    (trackBlockBreak s b).activeMissions.map (fun m => m.id) =
      s.activeMissions.map (fun m => m.id) := by
  cases hc : s.isConnected with
  | false => rw [(trackers_noop_of_disconnected s b hc).2]
  | true => rw [trackBlockBreak_eq_connected hc]; exact updateMissionProgress_ids _ _ _

theorem applyOp_ids (s : ServiceState) (op : GameOp) :
    (applyOp s op).activeMissions.map (fun m => m.id) =
      s.activeMissions.map (fun m => m.id) := by
  cases op with
  | placeBlock b => exact trackBlockPlace_ids s b
  | breakBlock b => exact trackBlockBreak_ids s b

theorem applyOp_isConnected (s : ServiceState) (op : GameOp) :
    (applyOp s op).isConnected = s.isConnected := by
  cases op with
  | placeBlock b =>
    show (trackBlockPlace s b).isConnected = s.isConnected
    cases hc : s.isConnected with
    | false => rw [(trackers_noop_of_disconnected s b hc).1]; exact hc
    | true =>
      rw [trackBlockPlace_eq_connected hc, updateMissionProgress_isConnected]
      exact hc
  | breakBlock b =>
    show (trackBlockBreak s b).isConnected = s.isConnected
    cases hc : s.isConnected with
    | false => rw [(trackers_noop_of_disconnected s b hc).2]; exact hc
    | true =>
      rw [trackBlockBreak_eq_connected hc, updateMissionProgress_isConnected]
      exact hc

theorem NodupIds_applyOp (s : ServiceState) (op : GameOp) (hn : NodupIds s) :
    NodupIds (applyOp s op) := by
  unfold NodupIds
  rw [applyOp_ids]
  exact hn

/-! #### Completed missions are frozen -/

theorem pureMissionUpdate_of_completed (a : ActionType) (t : String) (m : Mission)
    (hc : m.completed = true) : pureMissionUpdate a t m = m := by
  unfold pureMissionUpdate
  rw [if_pos hc]

/-- Claim C9: once a mission's completed flag is true, every subsequent
action event (trackBlockPlace / trackBlockBreak) leaves that mission entirely
unchanged: its requirement counters and its progress value are exactly as
before, because the progress update skips completed missions. -/
theorem claim_C9 (s : ServiceState) (mid : String) (m : Mission) (b : String)
    (hn : NodupIds s) (hf : findMission s.activeMissions mid = some m)
    (hc : m.completed = true) :
    findMission (trackBlockPlace s b).activeMissions mid = some m ∧
    findMission (trackBlockBreak s b).activeMissions mid = some m := by
  constructor
  · cases hcon : s.isConnected with
    | false => rw [(trackers_noop_of_disconnected s b hcon).1]; exact hf
    | true =>
      rw [trackBlockPlace_findMission s b mid hn hcon, hf, Option.map_some',
        pureMissionUpdate_of_completed _ _ m hc]
  · cases hcon : s.isConnected with
    | false => rw [(trackers_noop_of_disconnected s b hcon).2]; exact hf
    | true =>
      rw [trackBlockBreak_findMission s b mid hn hcon, hf, Option.map_some',
        pureMissionUpdate_of_completed _ _ m hc]

/-- Witness for C9 on a concrete completed mission. -/
theorem claim_C9_witness :
    NodupIds completedFixtureState ∧
    findMission completedFixtureState.activeMissions "done_mission" =
      some completedFixtureMission ∧
    completedFixtureMission.completed = true ∧
    (findMission (trackBlockPlace completedFixtureState "STONE").activeMissions
        "done_mission" = some completedFixtureMission ∧
     findMission (trackBlockBreak completedFixtureState "STONE").activeMissions
        "done_mission" = some completedFixtureMission) := by
  have hn : NodupIds completedFixtureState := by unfold NodupIds; decide
  exact ⟨hn, rfl, rfl, claim_C9 completedFixtureState "done_mission"
    completedFixtureMission "STONE" hn rfl rfl⟩

/-! #### Requirement-list bookkeeping -/

theorem totalCurrent_cons (r : MissionRequirement) (rs : List MissionRequirement) :
    totalCurrent (r :: rs) = r.current + totalCurrent rs := by
  simp [totalCurrent]

theorem totalRequired_cons (r : MissionRequirement) (rs : List MissionRequirement) :
    totalRequired (r :: rs) = r.amount + totalRequired rs := by
  simp [totalRequired]

theorem reqShapes_bumpAt (rs : List MissionRequirement) (i : Nat) :
    reqShapes (bumpAt rs i) = reqShapes rs := by
  induction rs generalizing i with
  | nil => rfl
  | cons r rest ih =>
    cases i with
    | zero => rfl
    | succ j =>
      show reqShapes (r :: bumpAt rest j) = reqShapes (r :: rest)
      unfold reqShapes at ih ⊢
      rw [List.map_cons, List.map_cons, ih j]

theorem amounts_bumpAt (rs : List MissionRequirement) (i : Nat) :
    (bumpAt rs i).map (fun r => r.amount) = rs.map (fun r => r.amount) := by
  induction rs generalizing i with
  | nil => rfl
  | cons r rest ih =>
    cases i with
    | zero => rfl
    | succ j =>
      show (r :: bumpAt rest j).map _ = _
      rw [List.map_cons, List.map_cons, ih j]

theorem totalRequired_bumpAt (rs : List MissionRequirement) (i : Nat) :
    totalRequired (bumpAt rs i) = totalRequired rs := by
  unfold totalRequired
  rw [amounts_bumpAt]

theorem totalCurrent_bumpAt (rs : List MissionRequirement) (i : Nat)
    (h : i < rs.length) :
    totalCurrent (bumpAt rs i) = totalCurrent rs + 1 := by
  induction rs generalizing i with
  | nil => simp at h
  | cons r rest ih =>
    cases i with
    | zero =>
      show totalCurrent ({ r with current := r.current + 1 } :: rest) = _
      rw [totalCurrent_cons, totalCurrent_cons]
      show r.current + 1 + totalCurrent rest = r.current + totalCurrent rest + 1
      omega
    | succ j =>
      show totalCurrent (r :: bumpAt rest j) = _
      rw [totalCurrent_cons, totalCurrent_cons, ih j (by simpa using h)]
      omega

theorem length_eq_of_reqShapes {rs rs' : List MissionRequirement}
    (h : reqShapes rs = reqShapes rs') : rs.length = rs'.length := by
  have := congrArg List.length h
  simpa [reqShapes] using this

theorem totalRequired_eq_of_reqShapes {rs rs' : List MissionRequirement}
    (h : reqShapes rs = reqShapes rs') : totalRequired rs = totalRequired rs' := by
  have hm : rs.map (fun r => r.amount) = rs'.map (fun r => r.amount) := by
    have h1 : (reqShapes rs).map (fun x => x.2.2) = (reqShapes rs').map (fun x => x.2.2) := by
      rw [h]
    simpa [reqShapes, List.map_map, Function.comp, reqShape] using h1
  unfold totalRequired
  rw [hm]

theorem getElem?_reqShape {rs rs' : List MissionRequirement}
    (h : reqShapes rs = reqShapes rs') (i : Nat) :
    (rs[i]?).map reqShape = (rs'[i]?).map reqShape := by
  have h1 : (reqShapes rs)[i]? = (reqShapes rs')[i]? := by rw [h]
  simpa [reqShapes, List.getElem?_map] using h1

theorem reqMatches_eq_of_reqShape {r r' : MissionRequirement}
    (h : reqShape r = reqShape r') (a : ActionType) (t : String) :
    reqMatches r a t = reqMatches r' a t := by
  unfold reqShape at h
  unfold reqMatches
  rw [show r.type = r'.type from congrArg (fun x => x.1) h,
    show r.target = r'.target from congrArg (fun x => x.2.1) h]

theorem mem_matchIdxs {m : Mission} {op : GameOp} {j : Nat} :
    j ∈ matchIdxs m op ↔
      ∃ r, m.requirements[j]? = some r ∧
        reqMatches r op.actionType op.target = true := by
  unfold matchIdxs
  rw [List.mem_filter, List.mem_range]
  constructor
  · rintro ⟨hlt, hpred⟩
    cases hr : m.requirements[j]? with
    | none => rw [hr] at hpred; simp at hpred
    | some r =>
      rw [hr] at hpred
      exact ⟨r, rfl, hpred⟩
  · rintro ⟨r, hr, hmatch⟩
    have hlt : j < m.requirements.length := by
      have := List.getElem?_eq_some_iff.mp hr
      exact this.1
    refine ⟨hlt, ?_⟩
    rw [hr]
    exact hmatch

theorem matchIdxs_eq_of_reqShapes {m m' : Mission} (op : GameOp)
    (h : reqShapes m.requirements = reqShapes m'.requirements) :
    matchIdxs m op = matchIdxs m' op := by
  unfold matchIdxs
  rw [length_eq_of_reqShapes h]
  apply List.filter_congr
  intro i _
  have hs := getElem?_reqShape h i
  cases hr : m.requirements[i]? with
  | none =>
    rw [hr] at hs
    cases hr' : m'.requirements[i]? with
    | none => rfl
    | some r' => rw [hr'] at hs; simp at hs
  | some r =>
    rw [hr] at hs
    cases hr' : m'.requirements[i]? with
    | none => rw [hr'] at hs; simp at hs
    | some r' =>
      rw [hr'] at hs
      simp only [Option.map_some', Option.some.injEq] at hs
      exact reqMatches_eq_of_reqShape hs op.actionType op.target

/-! #### Rational helpers for the progress fraction -/

theorem ratMin_eq_min (a b : ℚ) : ratMin a b = min a b := by
  unfold ratMin
  rw [min_def]

theorem missionProgressOf_eq (rs : List MissionRequirement) :
    missionProgressOf rs =
      min ((totalCurrent rs : ℚ) / (totalRequired rs : ℚ)) 1 := by
  unfold missionProgressOf
  rw [ratMin_eq_min]

theorem one_le_progressFraction {c n : Nat} (hn : 0 < n) :
    (1 ≤ min ((c : ℚ) / (n : ℚ)) 1) ↔ n ≤ c := by
  rw [le_min_iff]
  have hnq : (0 : ℚ) < (n : ℚ) := by exact_mod_cast hn
  rw [one_le_div hnq]
  constructor
  · rintro ⟨h1, _⟩
    exact_mod_cast h1
  · intro h
    exact ⟨by exact_mod_cast h, le_refl 1⟩

theorem progressFraction_nonneg (c n : Nat) : (0 : ℚ) ≤ min ((c : ℚ) / (n : ℚ)) 1 := by
  rw [le_min_iff]
  constructor
  · positivity
  · norm_num

theorem progressFraction_le_one (c n : Nat) : min ((c : ℚ) / (n : ℚ)) 1 ≤ 1 :=
  min_le_right _ _

theorem progressFraction_mono {c c' : Nat} (n : Nat) (h : c ≤ c') :
    min ((c : ℚ) / (n : ℚ)) 1 ≤ min ((c' : ℚ) / (n : ℚ)) 1 := by
  apply min_le_min _ (le_refl 1)
  exact div_le_div_of_nonneg_right (by exact_mod_cast h) (by positivity)

/-! #### One matching row per event: the requirements loop acts once -/

theorem foldl_fix {α : Type} (f : α → Nat → α) (x : α) :
    ∀ l : List Nat, (∀ i ∈ l, f x i = x) → l.foldl f x = x := by
  intro l
  induction l with
  | nil => intro _; rfl
  | cons i rest ih =>
    intro h
    rw [List.foldl_cons, h i (List.mem_cons_self i rest)]
    exact ih (fun j hj => h j (List.mem_cons_of_mem i hj))

theorem foldl_single_step {α : Type} (f : α → Nat → α) (Q : α → Prop) (j : Nat)
    (hid : ∀ y i, Q y → i ≠ j → f y i = y) :
    ∀ l : List Nat, l.Nodup → j ∈ l → ∀ x, Q x → Q (f x j) →
      l.foldl f x = f x j := by
  intro l
  induction l with
  | nil => intro _ hj; simp at hj
  | cons i rest ih =>
    intro hnd hj x hQ hQ'
    have hnd' := List.nodup_cons.mp hnd
    by_cases hij : i = j
    · subst hij
      rw [List.foldl_cons]
      apply foldl_fix
      intro i' hi'
      have : i' ≠ i := fun he => hnd'.1 (he ▸ hi')
      exact hid (f x i) i' hQ' this
    · have hjrest : j ∈ rest := by
        cases List.mem_cons.mp hj with
        | inl he => exact absurd he.symm hij
        | inr hm => exact hm
      rw [List.foldl_cons, hid x i hQ hij]
      exact ih hnd'.2 hjrest x hQ hQ'

theorem pureReqStep_id_of_shape (m₀ : Mission) (a : ActionType) (t : String) (j : Nat)
    (huniq : ∀ i, (∃ r, m₀.requirements[i]? = some r ∧ reqMatches r a t = true) → i = j) :
    ∀ (y : Mission) (i : Nat),
      reqShapes y.requirements = reqShapes m₀.requirements → i ≠ j →
      pureReqStep a t y i = y := by
  intro y i hsh hij
  cases hr : y.requirements[i]? with
  | none => exact pureReqStep_eq_noReq hr
  | some r =>
    have hs := getElem?_reqShape hsh i
    rw [hr] at hs
    cases hr0 : m₀.requirements[i]? with
    | none => rw [hr0] at hs; simp at hs
    | some r0 =>
      rw [hr0] at hs
      simp only [Option.map_some', Option.some.injEq] at hs
      cases hm : reqMatches r a t with
      | false => exact pureReqStep_eq_noMatch hr hm
      | true =>
        exfalso
        apply hij
        apply huniq i
        refine ⟨r0, hr0, ?_⟩
        rw [← reqMatches_eq_of_reqShape hs a t]
        exact hm

theorem pureMissionUpdate_one_match (m₀ m : Mission) (a : ActionType) (t : String)
    (j k : Nat)
    (hsh : reqShapes m.requirements = reqShapes m₀.requirements)
    (hc : m.completed = false)
    (hcur : totalCurrent m.requirements = k)
    (hNpos : 0 < totalRequired m₀.requirements)
    (hj : ∃ r, m₀.requirements[j]? = some r ∧ reqMatches r a t = true)
    (huniq : ∀ i, (∃ r, m₀.requirements[i]? = some r ∧ reqMatches r a t = true) → i = j) :
    reqShapes (pureMissionUpdate a t m).requirements = reqShapes m₀.requirements ∧
    totalCurrent (pureMissionUpdate a t m).requirements = k + 1 ∧
    (pureMissionUpdate a t m).completed =
      decide (totalRequired m₀.requirements ≤ k + 1) ∧
    (pureMissionUpdate a t m).progress =
      ratMin (((k + 1 : Nat) : ℚ) / (totalRequired m₀.requirements : ℚ)) 1 := by
  obtain ⟨r0, hr0, hm0⟩ := hj
  have hs := getElem?_reqShape hsh j
  rw [hr0] at hs
  cases hr : m.requirements[j]? with
  | none => rw [hr] at hs; simp at hs
  | some r =>
    rw [hr] at hs
    simp only [Option.map_some', Option.some.injEq] at hs
    have hm : reqMatches r a t = true := by
      rw [reqMatches_eq_of_reqShape hs a t]
      exact hm0
    have hjlt : j < m.requirements.length := (List.getElem?_eq_some_iff.mp hr).1
    have hNm : totalRequired m.requirements = totalRequired m₀.requirements :=
      totalRequired_eq_of_reqShapes hsh
    -- the fold does exactly the j-th step
    have hstep := pureReqStep_eq_match hr hm
    have hshape' : reqShapes (pureReqStep a t m j).requirements =
        reqShapes m₀.requirements := by
      rw [hstep]
      by_cases hcond : 1 ≤ (bumpedMission m j).progress ∧ m.completed = false
      · rw [if_pos hcond]
        show reqShapes (bumpAt m.requirements j) = _
        rw [reqShapes_bumpAt]; exact hsh
      · rw [if_neg hcond]
        show reqShapes (bumpAt m.requirements j) = _
        rw [reqShapes_bumpAt]; exact hsh
    have hfold : pureMissionUpdate a t m = pureReqStep a t m j := by
      unfold pureMissionUpdate
      rw [if_neg (by simp [hc])]
      exact foldl_single_step (fun mm i => pureReqStep a t mm i)
        (fun y => reqShapes y.requirements = reqShapes m₀.requirements) j
        (pureReqStep_id_of_shape m₀ a t j huniq)
        (List.range m.requirements.length) (List.nodup_range _)
        (List.mem_range.mpr hjlt) m hsh hshape'
    -- the bumped progress fraction and its threshold test
    have hbumpTot : totalCurrent (bumpAt m.requirements j) = k + 1 := by
      rw [totalCurrent_bumpAt m.requirements j hjlt, hcur]
    have hbumpReq : totalRequired (bumpAt m.requirements j) =
        totalRequired m₀.requirements := by
      rw [totalRequired_bumpAt, hNm]
    have hprog : (bumpedMission m j).progress =
        ratMin (((k + 1 : Nat) : ℚ) / (totalRequired m₀.requirements : ℚ)) 1 := by
      rw [bumpedMission_progress]
      unfold missionProgressOf
      rw [hbumpTot, hbumpReq]
    have hthr : (1 ≤ (bumpedMission m j).progress) ↔
        totalRequired m₀.requirements ≤ k + 1 := by
      rw [hprog, ratMin_eq_min]
      exact one_le_progressFraction hNpos
    rw [hfold, hstep]
    by_cases hcond : 1 ≤ (bumpedMission m j).progress ∧ m.completed = false
    · rw [if_pos hcond]
      refine ⟨?_, ?_, ?_, ?_⟩
      · show reqShapes (bumpAt m.requirements j) = _
        rw [reqShapes_bumpAt]; exact hsh
      · show totalCurrent (bumpAt m.requirements j) = k + 1
        exact hbumpTot
      · show true = decide (totalRequired m₀.requirements ≤ k + 1)
        rw [decide_eq_true (hthr.mp hcond.1)]
      · show (bumpedMission m j).progress = _
        exact hprog
    · rw [if_neg hcond]
      have hnot : ¬ totalRequired m₀.requirements ≤ k + 1 := by
        intro hle
        exact hcond ⟨hthr.mpr hle, hc⟩
      refine ⟨?_, ?_, ?_, ?_⟩
      · show reqShapes (bumpAt m.requirements j) = _
        rw [reqShapes_bumpAt]; exact hsh
      · exact hbumpTot
      · show m.completed = decide (totalRequired m₀.requirements ≤ k + 1)
        rw [hc, decide_eq_false hnot]
      · exact hprog

theorem opMatchCount_one {m : Mission} {op : GameOp} (h : opMatchCount m op = 1) :
    ∃ j : Nat, (∃ r, m.requirements[j]? = some r ∧
            reqMatches r op.actionType op.target = true) ∧
      ∀ i : Nat, (∃ r, m.requirements[i]? = some r ∧
              reqMatches r op.actionType op.target = true) → i = j := by
  unfold opMatchCount at h
  obtain ⟨j, hj⟩ := List.length_eq_one.mp h
  refine ⟨j, ?_, ?_⟩
  · have hmem : j ∈ matchIdxs m op := by rw [hj]; exact List.mem_singleton.mpr rfl
    exact mem_matchIdxs.mp hmem
  · intro i hi
    have hmem : i ∈ matchIdxs m op := mem_matchIdxs.mpr hi
    rw [hj] at hmem
    exact List.mem_singleton.mp hmem

theorem C1_aux (mid : String) (m₀ : Mission)
    (hNpos : 0 < totalRequired m₀.requirements) :
    ∀ (ops : List GameOp) (s : ServiceState) (m : Mission) (k : Nat),
      NodupIds s → s.isConnected = true →
      findMission s.activeMissions mid = some m →
      reqShapes m.requirements = reqShapes m₀.requirements →
      totalCurrent m.requirements = k →
      m.completed = decide (totalRequired m₀.requirements ≤ k) →
      (1 ≤ k → m.progress =
        ratMin ((k : ℚ) / (totalRequired m₀.requirements : ℚ)) 1) →
      (∀ op ∈ ops, opMatchCount m₀ op = 1) →
      k + ops.length ≤ totalRequired m₀.requirements →
      ∃ m', findMission (applyTrace s ops).activeMissions mid = some m' ∧
        totalCurrent m'.requirements = k + ops.length ∧
        m'.completed = decide (totalRequired m₀.requirements ≤ k + ops.length) ∧
        (1 ≤ k + ops.length → m'.progress =
          ratMin (((k + ops.length : Nat) : ℚ) /
            (totalRequired m₀.requirements : ℚ)) 1) := by
  intro ops
  induction ops with
  | nil =>
    intro s m k hn hcon hf hsh hcur hcompl hprog hops hbound
    exact ⟨m, hf, hcur, hcompl, hprog⟩
  | cons op rest ih =>
    intro s m k hn hcon hf hsh hcur hcompl hprog hops hbound
    have hlen : k + (op :: rest).length = (k + 1) + rest.length := by
      rw [List.length_cons]; omega
    have hk_lt : k < totalRequired m₀.requirements := by
      rw [List.length_cons] at hbound; omega
    have hcFalse : m.completed = false := by
      rw [hcompl, decide_eq_false (by omega)]
    obtain ⟨j, hj, huniq⟩ := opMatchCount_one (hops op (List.mem_cons_self op rest))
    have hchar := pureMissionUpdate_one_match m₀ m op.actionType op.target j k
      hsh hcFalse hcur hNpos hj huniq
    have hfind' : findMission (applyOp s op).activeMissions mid =
        some (pureMissionUpdate op.actionType op.target m) := by
      rw [applyOp_findMission s op mid hn hcon, hf, Option.map_some']
    have hcon' : (applyOp s op).isConnected = true := by
      rw [applyOp_isConnected]; exact hcon
    obtain ⟨m', h1, h2, h3, h4⟩ := ih (applyOp s op)
      (pureMissionUpdate op.actionType op.target m) (k + 1)
      (NodupIds_applyOp s op hn) hcon' hfind' hchar.1 hchar.2.1 hchar.2.2.1
      (fun _ => hchar.2.2.2)
      (fun o ho => hops o (List.mem_cons_of_mem op ho))
      (by rw [List.length_cons] at hbound; omega)
    rw [hlen]
    exact ⟨m', h1, h2, h3, h4⟩

/-- Claim C1: for a fresh mission whose requirements sum to N needed units,
after exactly N action events that each match exactly one of its requirement
rows (the row's kind equals the event's kind and its target is the event's
subject or "any"), the mission's progress is 1 and completed is true; after
fewer than N such events, completed is still false.  Completion is decided by
the combined count across all rows reaching the combined target N, not by
each row independently reaching its own target. -/
theorem claim_C1 (s₀ : ServiceState) (mid : String) (m₀ : Mission)
    (ops : List GameOp)
    (hn : NodupIds s₀) (hcon : s₀.isConnected = true)
    (hf : findMission s₀.activeMissions mid = some m₀)
    (hfresh : ∀ r ∈ m₀.requirements, r.current = 0)
    (hcomp : m₀.completed = false)
    (hNpos : 0 < totalRequired m₀.requirements)
    (hmatch : ∀ op ∈ ops, opMatchCount m₀ op = 1) :
    (ops.length = totalRequired m₀.requirements →
      ∃ m', findMission (applyTrace s₀ ops).activeMissions mid = some m' ∧
        m'.progress = 1 ∧ m'.completed = true) ∧
    (ops.length < totalRequired m₀.requirements →
      ∃ m', findMission (applyTrace s₀ ops).activeMissions mid = some m' ∧
        m'.completed = false) := by
  have hcur0 : totalCurrent m₀.requirements = 0 := by
    unfold totalCurrent
    apply List.sum_eq_zero
    intro x hx
    obtain ⟨r, hr, hrx⟩ := List.mem_map.mp hx
    rw [← hrx]
    exact hfresh r hr
  have hcompl0 : m₀.completed = decide (totalRequired m₀.requirements ≤ 0) := by
    rw [hcomp, decide_eq_false (by omega)]
  have hprog0 : 1 ≤ 0 → m₀.progress =
      ratMin (((0 : Nat) : ℚ) / (totalRequired m₀.requirements : ℚ)) 1 :=
    fun h => absurd h (by omega)
  constructor
  · intro hlen
    obtain ⟨m', h1, h2, h3, h4⟩ := C1_aux mid m₀ hNpos ops s₀ m₀ 0
      hn hcon hf rfl hcur0 hcompl0 hprog0 hmatch (by omega)
    refine ⟨m', h1, ?_, ?_⟩
    · have hp := h4 (by omega)
      rw [hp, show 0 + ops.length = totalRequired m₀.requirements from by omega]
      rw [div_self (Nat.cast_ne_zero.mpr hNpos.ne' :
            ((totalRequired m₀.requirements : ℚ) ≠ 0))]
      rw [ratMin_eq_min, min_self]
    · rw [h3, decide_eq_true (by omega)]
  · intro hlen
    obtain ⟨m', h1, h2, h3, h4⟩ := C1_aux mid m₀ hNpos ops s₀ m₀ 0
      hn hcon hf rfl hcur0 hcompl0 hprog0 hmatch (by omega)
    refine ⟨m', h1, ?_⟩
    rw [h3, decide_eq_false (by omega)]

/-- Witness for C1: one any-block placement completes first_builder (N = 1). -/
theorem claim_C1_witness :
    NodupIds connectedState ∧
    findMission connectedState.activeMissions "first_builder" =
      some firstBuilderMission ∧
    (∀ r ∈ firstBuilderMission.requirements, r.current = 0) ∧
    firstBuilderMission.completed = false ∧
    0 < totalRequired firstBuilderMission.requirements ∧
    (∀ op ∈ [GameOp.placeBlock "STONE"], opMatchCount firstBuilderMission op = 1) ∧
    (([GameOp.placeBlock "STONE"] : List GameOp).length =
        totalRequired firstBuilderMission.requirements →
      ∃ m', findMission
          (applyTrace connectedState [GameOp.placeBlock "STONE"]).activeMissions
          "first_builder" = some m' ∧ m'.progress = 1 ∧ m'.completed = true) ∧
    (([GameOp.placeBlock "STONE"] : List GameOp).length <
        totalRequired firstBuilderMission.requirements →
      ∃ m', findMission
          (applyTrace connectedState [GameOp.placeBlock "STONE"]).activeMissions
          "first_builder" = some m' ∧ m'.completed = false) := by
  have hn : NodupIds connectedState := by unfold NodupIds; decide
  have hmatch : ∀ op ∈ [GameOp.placeBlock "STONE"],
      opMatchCount firstBuilderMission op = 1 := by decide
  have hfresh : ∀ r ∈ firstBuilderMission.requirements, r.current = 0 := by decide
  have h := claim_C1 connectedState "first_builder" firstBuilderMission
    [GameOp.placeBlock "STONE"] hn rfl rfl hfresh rfl (by decide) hmatch
  exact ⟨hn, rfl, hfresh, rfl, by decide, hmatch, h.1, h.2⟩

/-! #### Progress stays in [0, 1] and never decreases -/

theorem totalRequired_pos {rs : List MissionRequirement}
    (hamt : ∀ r ∈ rs, 1 ≤ r.amount) (hne : rs ≠ []) : 0 < totalRequired rs := by
  cases rs with
  | nil => exact absurd rfl hne
  | cons r rest =>
    rw [totalRequired_cons]
    have := hamt r (List.mem_cons_self r rest)
    omega

theorem amount_of_mem_bumpAt {rs : List MissionRequirement} {i : Nat}
    {r' : MissionRequirement} (h : r' ∈ bumpAt rs i) :
    ∃ r ∈ rs, r.amount = r'.amount := by
  have hmem : r'.amount ∈ (bumpAt rs i).map (fun r => r.amount) :=
    List.mem_map_of_mem _ h
  rw [amounts_bumpAt] at hmem
  exact List.mem_map.mp hmem

theorem pureReqStep_MInv (a : ActionType) (t : String) (m : Mission) (i : Nat)
    (hm : MInv m) :
    MInv (pureReqStep a t m i) ∧ m.progress ≤ (pureReqStep a t m i).progress := by
  cases hr : m.requirements[i]? with
  | none => rw [pureReqStep_eq_noReq hr]; exact ⟨hm, le_refl _⟩
  | some r =>
    cases hmt : reqMatches r a t with
    | false => rw [pureReqStep_eq_noMatch hr hmt]; exact ⟨hm, le_refl _⟩
    | true =>
      rw [pureReqStep_eq_match hr hmt]
      obtain ⟨hamt, hge0, hle1, hrel⟩ := hm
      have hne : m.requirements ≠ [] := by
        intro hemp; rw [hemp] at hr; simp at hr
      have hNpos : 0 < totalRequired m.requirements := totalRequired_pos hamt hne
      have hjlt : i < m.requirements.length := (List.getElem?_eq_some_iff.mp hr).1
      have hamt' : ∀ r' ∈ bumpAt m.requirements i, 1 ≤ r'.amount := by
        intro r' hr'
        obtain ⟨q, hq, hqe⟩ := amount_of_mem_bumpAt hr'
        rw [← hqe]
        exact hamt q hq
      have hboost : missionProgressOf m.requirements ≤
          missionProgressOf (bumpAt m.requirements i) := by
        rw [missionProgressOf_eq, missionProgressOf_eq,
          totalCurrent_bumpAt m.requirements i hjlt, totalRequired_bumpAt]
        exact progressFraction_mono _ (Nat.le_succ _)
      have hmono : m.progress ≤ missionProgressOf (bumpAt m.requirements i) :=
        le_trans (hrel hne) hboost
      have hbase : MInv (bumpedMission m i) := by
        refine ⟨hamt', ?_, ?_, ?_⟩
        · rw [bumpedMission_progress, missionProgressOf_eq]
          exact progressFraction_nonneg _ _
        · rw [bumpedMission_progress, missionProgressOf_eq]
          exact progressFraction_le_one _ _
        · intro _
          rw [bumpedMission_progress, bumpedMission_requirements]
      by_cases hcond : 1 ≤ (bumpedMission m i).progress ∧ m.completed = false
      · rw [if_pos hcond]
        refine ⟨?_, ?_⟩
        · obtain ⟨h1, h2, h3, h4⟩ := hbase
          exact ⟨h1, h2, h3, h4⟩
        · show m.progress ≤ (bumpedMission m i).progress
          rw [bumpedMission_progress]
          exact hmono
      · rw [if_neg hcond]
        refine ⟨hbase, ?_⟩
        rw [bumpedMission_progress]
        exact hmono

theorem pureSteps_MInv (a : ActionType) (t : String) :
    ∀ (l : List Nat) (m : Mission), MInv m →
      MInv (l.foldl (fun mm i => pureReqStep a t mm i) m) ∧
      m.progress ≤ (l.foldl (fun mm i => pureReqStep a t mm i) m).progress := by
  intro l
  induction l with
  | nil => intro m hm; exact ⟨hm, le_refl _⟩
  | cons i rest ih =>
    intro m hm
    have hstep := pureReqStep_MInv a t m i hm
    have hrest := ih (pureReqStep a t m i) hstep.1
    exact ⟨hrest.1, le_trans hstep.2 hrest.2⟩

theorem pureMissionUpdate_MInv (a : ActionType) (t : String) (m : Mission)
    (hm : MInv m) :
    MInv (pureMissionUpdate a t m) ∧ m.progress ≤ (pureMissionUpdate a t m).progress := by
  unfold pureMissionUpdate
  by_cases hc : m.completed = true
  · rw [if_pos hc]; exact ⟨hm, le_refl _⟩
  · rw [if_neg hc]
    exact pureSteps_MInv a t _ m hm

theorem findMission_of_mem_nodup (ms : List Mission)
    (hn : (ms.map (fun m => m.id)).Nodup) (m : Mission) (hm : m ∈ ms) :
    findMission ms m.id = some m := by
  induction ms with
  | nil => simp at hm
  | cons a l ih =>
    rw [findMission_cons]
    cases List.mem_cons.mp hm with
    | inl he =>
      rw [he, if_pos rfl]
    | inr hmem =>
      have hne : a.id ≠ m.id := by
        intro he
        have hin : m.id ∈ l.map (fun m => m.id) := List.mem_map_of_mem _ hmem
        rw [← he] at hin
        exact (List.nodup_cons.mp (by simpa using hn)).1 hin
      rw [if_neg hne]
      exact ih (List.nodup_cons.mp (by simpa using hn)).2 hmem

theorem SWF_applyOp (s : ServiceState) (op : GameOp) (h : SWF s) :
    SWF (applyOp s op) := by
  refine ⟨NodupIds_applyOp s op h.1, ?_⟩
  intro m' hm'
  cases hcon : s.isConnected with
  | false =>
    have heq : applyOp s op = s := by
      cases op with
      | placeBlock b => exact (trackers_noop_of_disconnected s b hcon).1
      | breakBlock b => exact (trackers_noop_of_disconnected s b hcon).2
    rw [heq] at hm'
    exact h.2 m' hm'
  | true =>
    have hn' : NodupIds (applyOp s op) := NodupIds_applyOp s op h.1
    have hfind : findMission (applyOp s op).activeMissions m'.id = some m' :=
      findMission_of_mem_nodup _ hn' m' hm'
    rw [applyOp_findMission s op m'.id h.1 hcon] at hfind
    cases hf : findMission s.activeMissions m'.id with
    | none => rw [hf] at hfind; simp at hfind
    | some m =>
      rw [hf, Option.map_some', Option.some.injEq] at hfind
      have hmem : m ∈ s.activeMissions := findMission_mem hf
      have := pureMissionUpdate_MInv op.actionType op.target m (h.2 m hmem)
      rw [hfind] at this
      exact this.1

theorem SWF_applyTrace (ops : List GameOp) :
    ∀ s : ServiceState, SWF s → SWF (applyTrace s ops) := by
  induction ops with
  | nil => intro s h; exact h
  | cons op rest ih =>
    intro s h
    exact ih (applyOp s op) (SWF_applyOp s op h)

/-- Claim C8: starting from a well-formed state (unique ids, positive
thresholds, progress within bounds and below the recomputed fraction), every
mission's progress stays in [0, 1] along any sequence of action events, and
per mission the progress never decreases from one event to the next. -/
theorem claim_C8 (s₀ : ServiceState) (hwf : SWF s₀) :
    (∀ ops : List GameOp, ∀ m ∈ (applyTrace s₀ ops).activeMissions,
      0 ≤ m.progress ∧ m.progress ≤ 1) ∧
    (∀ (ops : List GameOp) (op : GameOp) (mid : String) (m m' : Mission),
      findMission (applyTrace s₀ ops).activeMissions mid = some m →
      findMission (applyTrace s₀ (ops ++ [op])).activeMissions mid = some m' →
      m.progress ≤ m'.progress) := by
  constructor
  · intro ops m hm
    have hwf' := SWF_applyTrace ops s₀ hwf
    obtain ⟨_, h2, h3, _⟩ := hwf'.2 m hm
    exact ⟨h2, h3⟩
  · intro ops op mid m m' hf hf'
    have hwf' := SWF_applyTrace ops s₀ hwf
    have happ : applyTrace s₀ (ops ++ [op]) = applyOp (applyTrace s₀ ops) op := by
      unfold applyTrace
      rw [List.foldl_append]
      rfl
    rw [happ] at hf'
    cases hcon : (applyTrace s₀ ops).isConnected with
    | false =>
      have heq : applyOp (applyTrace s₀ ops) op = applyTrace s₀ ops := by
        cases op with
        | placeBlock b => exact (trackers_noop_of_disconnected _ b hcon).1
        | breakBlock b => exact (trackers_noop_of_disconnected _ b hcon).2
      rw [heq, hf, Option.some.injEq] at hf'
      rw [← hf']
    | true =>
      rw [applyOp_findMission _ op mid hwf'.1 hcon, hf, Option.map_some',
        Option.some.injEq] at hf'
      have hmem : m ∈ (applyTrace s₀ ops).activeMissions := findMission_mem hf
      have hstep := pureMissionUpdate_MInv op.actionType op.target m
        (hwf'.2 m hmem)
      rw [hf'] at hstep
      exact hstep.2

/-- Witness for C8 on the fresh connected session: bounds after one event,
and monotone progress of first_builder across a second event. -/
theorem claim_C8_witness :
    SWF connectedState ∧
    (∀ m ∈ (applyTrace connectedState [GameOp.placeBlock "STONE"]).activeMissions,
      0 ≤ m.progress ∧ m.progress ≤ 1) ∧
    findMission (applyTrace connectedState
        [GameOp.placeBlock "STONE"]).activeMissions "first_builder" =
      some { firstBuilderMission with
             requirements := [ { type := .block_place, target := "any",
                                 amount := 1, current := 1 } ],
             completed := true, progress := 1 } ∧
    findMission (applyTrace connectedState
        ([GameOp.placeBlock "STONE"] ++ [GameOp.placeBlock "GLASS"])).activeMissions
        "first_builder" =
      some { firstBuilderMission with
             requirements := [ { type := .block_place, target := "any",
                                 amount := 1, current := 1 } ],
             completed := true, progress := 1 } ∧
    ({ firstBuilderMission with
       requirements := [ { type := .block_place, target := "any",
                           amount := 1, current := 1 } ],
       completed := true, progress := 1 } : Mission).progress ≤
      ({ firstBuilderMission with
         requirements := [ { type := .block_place, target := "any",
                             amount := 1, current := 1 } ],
         completed := true, progress := 1 } : Mission).progress := by
  have hwf : SWF connectedState := by
    constructor
    · unfold NodupIds; decide
    · intro m hm
      have hm' : m ∈ defaultMissions := by simpa [connectedState] using hm
      fin_cases hm' <;> (unfold MInv; with_unfolding_all decide)
  have h := claim_C8 connectedState hwf
  have hm1 : findMission (applyTrace connectedState
      [GameOp.placeBlock "STONE"]).activeMissions "first_builder" =
      some { firstBuilderMission with
             requirements := [ { type := .block_place, target := "any",
                                 amount := 1, current := 1 } ],
             completed := true, progress := 1 } := by
    with_unfolding_all decide
  have hm2 : findMission (applyTrace connectedState
      ([GameOp.placeBlock "STONE"] ++ [GameOp.placeBlock "GLASS"])).activeMissions
      "first_builder" =
      some { firstBuilderMission with
             requirements := [ { type := .block_place, target := "any",
                                 amount := 1, current := 1 } ],
             completed := true, progress := 1 } := by
    with_unfolding_all decide
  exact ⟨hwf, h.1 [GameOp.placeBlock "STONE"], hm1, hm2,
    h.2 [GameOp.placeBlock "STONE"] (GameOp.placeBlock "GLASS") "first_builder"
      _ _ hm1 hm2⟩

/-! #### The all-missions-completed milestone fires exactly once -/

theorem areAll_iff (s : ServiceState) :
    areAllMissionsCompleted s = true ↔
      (s.activeMissions ≠ [] ∧ ∀ m ∈ s.activeMissions, m.completed = true) := by
  unfold areAllMissionsCompleted
  rw [Bool.and_eq_true, decide_eq_true_eq, List.all_eq_true]
  constructor
  · rintro ⟨h1, h2⟩
    exact ⟨List.length_pos.mp h1, h2⟩
  · rintro ⟨h1, h2⟩
    exact ⟨List.length_pos.mpr h1, h2⟩

theorem areAll_congr {s s' : ServiceState}
    (h : s'.activeMissions = s.activeMissions) :
    areAllMissionsCompleted s' = areAllMissionsCompleted s := by
  unfold areAllMissionsCompleted
  rw [h]

theorem mkEvent_congr {s s' : ServiceState}
    (h1 : s'.playerIdentity = s.playerIdentity)
    (h2 : s'.completedMissions = s.completedMissions) :
    mkAllCompletedEvent s' = mkAllCompletedEvent s := by
  unfold mkAllCompletedEvent
  rw [h1, h2]

theorem checkAll_eq_pos {s : ServiceState} (h : areAllMissionsCompleted s = true) :
    checkAllMissionsCompleted s =
      { s with events := s.events ++ [mkAllCompletedEvent s] } := by
  unfold checkAllMissionsCompleted
  rw [if_pos]
  rw [areAll_iff] at h
  refine ⟨List.filter_length_eq_length.mpr h.2, List.length_pos.mpr h.1⟩

theorem checkAll_eq_neg {s : ServiceState} (h : areAllMissionsCompleted s = false) :
    checkAllMissionsCompleted s = s := by
  unfold checkAllMissionsCompleted
  rw [if_neg]
  intro hc
  have : areAllMissionsCompleted s = true := by
    rw [areAll_iff]
    exact ⟨List.length_pos.mp hc.2, List.filter_length_eq_length.mp hc.1⟩
  rw [h] at this
  exact absurd this (by simp)

theorem setMission_not_mem (ms : List Mission) (mid : String) (m' : Mission)
    (h : mid ∉ ms.map (fun m => m.id)) : setMission ms mid m' = ms := by
  induction ms with
  | nil => rfl
  | cons a l ih =>
    rw [setMission_cons]
    have ha : ¬ a.id = mid := fun he => h (by simp [he])
    rw [if_neg ha, ih (fun hm => h (by simp at hm ⊢; exact Or.inr hm))]

theorem all_completed_setMission {mid : String} {m m' : Mission} :
    ∀ ms : List Mission, (ms.map (fun m => m.id)).Nodup →
      findMission ms mid = some m → m'.completed = m.completed → m'.id = mid →
      (setMission ms mid m').all (fun x => x.completed) =
        ms.all (fun x => x.completed) := by
  intro ms
  induction ms with
  | nil => intro _ hf; simp [findMission] at hf
  | cons a l ih =>
    intro hn hf hflag hid
    rw [setMission_cons, findMission_cons] at *
    have hn2 : (a.id :: List.map (fun m => m.id) l).Nodup := hn
    have hn' := List.nodup_cons.mp hn2
    by_cases ha : a.id = mid
    · rw [if_pos ha] at hf ⊢
      have hma : m = a := by injection hf with h; exact h.symm
      have hnot : mid ∉ l.map (fun m => m.id) := by
        intro hm
        rw [← ha] at hm
        exact hn'.1 hm
      rw [setMission_not_mem l mid m' hnot, List.all_cons, List.all_cons,
        hflag, hma]
    · rw [if_neg ha] at hf ⊢
      rw [List.all_cons, List.all_cons, ih hn'.2 hf hflag hid]

theorem areAll_setMission (s : ServiceState) (mid : String) (m m' : Mission)
    (hn : NodupIds s) (hf : findMission s.activeMissions mid = some m)
    (hflag : m'.completed = m.completed) (hid : m'.id = mid) :
    areAllMissionsCompleted
      { s with activeMissions := setMission s.activeMissions mid m' } =
      areAllMissionsCompleted s := by
  unfold areAllMissionsCompleted
  have hlen : (setMission s.activeMissions mid m').length =
      s.activeMissions.length := by
    have := congrArg List.length (setMission_map_id s.activeMissions m' hid)
    simpa using this
  rw [show ({ s with activeMissions := setMission s.activeMissions mid m' } :
      ServiceState).activeMissions = setMission s.activeMissions mid m' from rfl,
    hlen, all_completed_setMission s.activeMissions hn hf hflag hid]

theorem SInv_checkAll_of_empty (s2 : ServiceState) (hn : NodupIds s2)
    (hev : s2.events = []) : SInv (checkAllMissionsCompleted s2) := by
  cases hall : areAllMissionsCompleted s2 with
  | false =>
    rw [checkAll_eq_neg hall]
    exact ⟨hn, Or.inl ⟨hev, hall⟩⟩
  | true =>
    rw [checkAll_eq_pos hall]
    refine ⟨hn, Or.inr ⟨?_, hall⟩⟩
    show s2.events ++ [mkAllCompletedEvent s2] = _
    rw [hev, List.nil_append]
    rfl

theorem SInv_completeMission (s : ServiceState) (mid : String) (h : SInv s) :
    SInv (completeMission s mid) := by
  cases hf : findMission s.activeMissions mid with
  | none => rw [completeMission_eq_none hf]; exact h
  | some m =>
    cases hcm : m.completed with
    | true => rw [completeMission_eq_completed hf hcm]; exact h
    | false =>
      -- the pre-state cannot already have everything completed
      have hfirst : s.events = [] ∧ areAllMissionsCompleted s = false := by
        cases h.2 with
        | inl h1 => exact h1
        | inr h2 =>
          exfalso
          have hall := (areAll_iff s).mp h2.2
          have := hall.2 m (findMission_mem hf)
          rw [hcm] at this
          exact absurd this (by simp)
      rw [completeMission_eq_run hf hcm]
      have hid : ({ m with completed := true } : Mission).id = mid :=
        (completedTrue_id m).trans (findMission_id hf)
      apply SInv_checkAll_of_empty
      · unfold NodupIds
        rw [foldl_applyReward_activeMissions]
        show ((setMission s.activeMissions mid _).map _).Nodup
        rw [setMission_map_id _ _ hid]
        exact h.1
      · rw [foldl_applyReward_events]
        exact hfirst.1

theorem SInv_processReqStep (s : ServiceState) (mid : String) (a : ActionType)
    (t : String) (i : Nat) (h : SInv s) : SInv (processReqStep s mid a t i) := by
  cases hf : findMission s.activeMissions mid with
  | none => rw [processReqStep_eq_noMission hf]; exact h
  | some m =>
    cases hr : m.requirements[i]? with
    | none => rw [processReqStep_eq_noReq hf hr]; exact h
    | some r =>
      cases hmt : reqMatches r a t with
      | false => rw [processReqStep_eq_noMatch hf hr hmt]; exact h
      | true =>
        rw [processReqStep_eq_match hf hr hmt]
        have hid : (bumpedMission m i).id = mid := by
          rw [bumpedMission_id]; exact findMission_id hf
        have hs1 : SInv { s with
            activeMissions := setMission s.activeMissions mid (bumpedMission m i) } := by
          refine ⟨?_, ?_⟩
          · unfold NodupIds
            show ((setMission s.activeMissions mid _).map _).Nodup
            rw [setMission_map_id _ _ hid]
            exact h.1
          · have harea := areAll_setMission s mid m (bumpedMission m i) h.1 hf
              (bumpedMission_completed m i) hid
            cases h.2 with
            | inl h1 =>
              refine Or.inl ⟨h1.1, ?_⟩
              rw [harea]
              exact h1.2
            | inr h2 =>
              refine Or.inr ⟨h2.1, ?_⟩
              rw [harea]
              exact h2.2
        by_cases hcond : 1 ≤ (bumpedMission m i).progress ∧ m.completed = false
        · rw [if_pos hcond]
          exact SInv_completeMission _ mid hs1
        · rw [if_neg hcond]
          exact hs1

theorem SInv_foldl {α : Type} (f : ServiceState → α → ServiceState)
    (hstep : ∀ s x, SInv s → SInv (f s x)) :
    ∀ (l : List α) (s : ServiceState), SInv s → SInv (l.foldl f s) := by
  intro l
  induction l with
  | nil => intro s h; exact h
  | cons x xs ih => intro s h; exact ih (f s x) (hstep s x h)

theorem SInv_updateMissionOne (s : ServiceState) (mid : String) (a : ActionType)
    (t : String) (h : SInv s) : SInv (updateMissionOne s mid a t) := by
  cases hf : findMission s.activeMissions mid with
  | none => rw [updateMissionOne_eq_none hf]; exact h
  | some m =>
    cases hcm : m.completed with
    | true => rw [updateMissionOne_eq_completed hf hcm]; exact h
    | false =>
      rw [updateMissionOne_eq_run hf hcm]
      exact SInv_foldl _ (fun st i => SInv_processReqStep st mid a t i) _ s h

theorem SInv_updateMissionProgress (s : ServiceState) (a : ActionType) (t : String)
    (h : SInv s) : SInv (updateMissionProgress s a t) :=
  SInv_foldl _ (fun st mid => SInv_updateMissionOne st mid a t) _ s h

theorem SInv_applyOp (s : ServiceState) (op : GameOp) (h : SInv s) :
    SInv (applyOp s op) := by
  cases op with
  | placeBlock b =>
    cases hc : s.isConnected with
    | false =>
      show SInv (trackBlockPlace s b)
      rw [(trackers_noop_of_disconnected s b hc).1]
      exact h
    | true =>
      show SInv (trackBlockPlace s b)
      rw [trackBlockPlace_eq_connected hc]
      exact SInv_updateMissionProgress _ _ _ h
  | breakBlock b =>
    cases hc : s.isConnected with
    | false =>
      show SInv (trackBlockBreak s b)
      rw [(trackers_noop_of_disconnected s b hc).2]
      exact h
    | true =>
      show SInv (trackBlockBreak s b)
      rw [trackBlockBreak_eq_connected hc]
      exact SInv_updateMissionProgress _ _ _ h

theorem SInv_applyTrace (ops : List GameOp) :
    ∀ s : ServiceState, SInv s → SInv (applyTrace s ops) := by
  induction ops with
  | nil => intro s h; exact h
  | cons op rest ih => intro s h; exact ih (applyOp s op) (SInv_applyOp s op h)

/-- Claim C5: areAllMissionsCompleted is true iff the catalog is non-empty
and every mission's completed flag is true; along any trace from a session
start (no events yet, not everything completed), the allMissionsCompleted
notification is in the log exactly once if everything is now completed and
never otherwise — it is emitted only by the call that completes the last
remaining mission, and it carries the aggregate stats (total xp, nectar
balance, level, completed mission id list) of that moment. -/
theorem claim_C5 (s₀ : ServiceState) (ops : List GameOp)
    (hn : NodupIds s₀) (hev : s₀.events = [])
    (hall : areAllMissionsCompleted s₀ = false) :
    (areAllMissionsCompleted (applyTrace s₀ ops) = true ↔
      ((applyTrace s₀ ops).activeMissions ≠ [] ∧
        ∀ m ∈ (applyTrace s₀ ops).activeMissions, m.completed = true)) ∧
    (applyTrace s₀ ops).events.length =
      (if areAllMissionsCompleted (applyTrace s₀ ops) = true then 1 else 0) ∧
    (areAllMissionsCompleted (applyTrace s₀ ops) = true →
      (applyTrace s₀ ops).events =
        [mkAllCompletedEvent (applyTrace s₀ ops)]) := by
  have hinv : SInv (applyTrace s₀ ops) :=
    SInv_applyTrace ops s₀ ⟨hn, Or.inl ⟨hev, hall⟩⟩
  refine ⟨areAll_iff _, ?_, ?_⟩
  · cases hinv.2 with
    | inl h1 => rw [h1.1, h1.2]; simp
    | inr h2 => rw [h2.1, h2.2]; simp
  · intro htrue
    cases hinv.2 with
    | inl h1 => rw [h1.2] at htrue; exact absurd htrue (by simp)
    | inr h2 => exact h2.1

/-- Witness for C5: two placements complete the only mission of the overflow
fixture, and exactly one event is logged. -/
theorem claim_C5_witness :
    NodupIds overflowState ∧ overflowState.events = [] ∧
    areAllMissionsCompleted overflowState = false ∧
    ((areAllMissionsCompleted (applyTrace overflowState
        [GameOp.placeBlock "X", GameOp.placeBlock "X"]) = true ↔
      ((applyTrace overflowState
          [GameOp.placeBlock "X", GameOp.placeBlock "X"]).activeMissions ≠ [] ∧
        ∀ m ∈ (applyTrace overflowState
            [GameOp.placeBlock "X", GameOp.placeBlock "X"]).activeMissions,
          m.completed = true)) ∧
    (applyTrace overflowState
        [GameOp.placeBlock "X", GameOp.placeBlock "X"]).events.length =
      (if areAllMissionsCompleted (applyTrace overflowState
          [GameOp.placeBlock "X", GameOp.placeBlock "X"]) = true then 1 else 0) ∧
    (areAllMissionsCompleted (applyTrace overflowState
        [GameOp.placeBlock "X", GameOp.placeBlock "X"]) = true →
      (applyTrace overflowState
          [GameOp.placeBlock "X", GameOp.placeBlock "X"]).events =
        [mkAllCompletedEvent (applyTrace overflowState
          [GameOp.placeBlock "X", GameOp.placeBlock "X"])])) := by
  have hn : NodupIds overflowState := by unfold NodupIds; decide
  refine ⟨hn, rfl, by decide, ?_⟩
  exact claim_C5 overflowState [GameOp.placeBlock "X", GameOp.placeBlock "X"]
    hn rfl (by decide)

end Threecraft
